import Mathlib

/-!
Shallow embedding of the Kontent backup-manager import orchestrator
(`src/import/import.service.ts`).  Network calls and observer callbacks are
modelled as an event trace; the remote management API is modelled as an
always-succeeding oracle server parameterised by a fresh-id assignment
`gen : String → String`.  Fallible orchestrator checks are modelled with
`Except String`.  Helpers that live in the repository `core` module (outside
the given sources) are modelled from the spec and marked as such.
-/

namespace KontentImport

/-- Entity kinds of import result entries (the static type of the `original`
object of an `IImportItemResult`). -/
inductive EntityKind where
  | assetFolder
  | language
  | taxonomy
  | contentTypeSnippet
  | contentType
  | asset
  | contentItem
  | languageVariant
  deriving DecidableEq, Repr

/-- Action types surfaced to the `onImport` observer callback by `processItem`. -/
inductive ActionType where
  | language
  | asset
  | assetFolder
  | contentType
  | contentTypeSnippet
  | contentItem
  | languageVariant
  | taxonomy
  | publish
  | changeWorkflowStep
  deriving DecidableEq, Repr

/-- One entry of the list of imported items (`IImportItemResult`): the
`imported` and `original` entities are rendered shallowly (`imported` keeps the
name/title used for progress reporting, `original` keeps the original id). -/
structure ImportItemResult where
  kind : EntityKind
  imported : String
  original : String
  importId : String
  originalId : String
  deriving DecidableEq, Repr

/-- A JSON-like element payload of a language variant.  Arrays and objects are
encoded as cons-chains (`jarrCons`/`jobjCons`) so that all recursion over the
payload is plain structural recursion; this encodes exactly the nested
objects/arrays the id-translation helper of the source walks. -/
inductive JsonVal where
  | jstr (s : String)
  | jnum (n : Int)
  | jbool (b : Bool)
  | jnull
  | jarrNil
  | jarrCons (head tail : JsonVal)
  | jobjNil
  | jobjCons (key : String) (val rest : JsonVal)
  deriving DecidableEq, Repr

/-- A reference to another entity: an original id plus the codename attached by
the codename translation pass (absent before translation / when unresolved). -/
structure Reference where
  id : String
  codename : Option String
  deriving DecidableEq, Repr

/-- A language contract of the import source (`ILanguageModelContract`). -/
structure LanguageContract where
  id : String
  name : String
  codename : String
  externalId : Option String
  isActive : Bool
  isDefault : Bool
  fallbackLanguage : Reference
  deriving DecidableEq, Repr

/-- A taxonomy contract (only the fields the import service reads). -/
structure TaxonomyContract where
  id : String
  name : String
  deriving DecidableEq, Repr

/-- A content type snippet contract (fields read by the import service). -/
structure SnippetContract where
  id : String
  name : String
  codename : String
  externalId : Option String
  deriving DecidableEq, Repr

/-- A content type contract (fields read by the import service). -/
structure ContentTypeContract where
  id : String
  name : String
  codename : String
  deriving DecidableEq, Repr

/-- A content item contract; `typeRef` is the item `type` reference whose
codename is attached by the codename translation pass. -/
structure ContentItemContract where
  id : String
  name : String
  codename : String
  externalId : Option String
  typeRef : Reference
  deriving DecidableEq, Repr

/-- A language variant contract: item and language references, the element
payload, and the recorded workflow step reference. -/
structure LanguageVariantContract where
  item : Reference
  language : Reference
  elements : JsonVal
  workflowStep : Reference
  deriving DecidableEq, Repr

/-- A workflow step definition of the import source. -/
structure WorkflowStep where
  id : String
  name : String
  deriving DecidableEq, Repr

/-- An asset contract (fields read by the import service). -/
structure AssetContract where
  id : String
  fileName : String
  title : String
  externalId : Option String
  folderId : Option String
  size : Nat
  deriving DecidableEq, Repr

/-- A companion binary file of an asset (`IBinaryFile`): the asset contract it
belongs to plus the binary payload (bytes as naturals). -/
structure BinaryFile where
  asset : AssetContract
  binaryData : List Nat
  deriving DecidableEq, Repr

/-- The nested asset-folder tree of the source (`IAssetFolderContract`),
encoded as a forest: `cons id name externalId children siblings` is a list of
sibling trees whose head folder has the given children. -/
inductive Forest where
  | nil
  | cons (id name : String) (externalId : Option String) (children siblings : Forest)
  deriving DecidableEq, Repr

/-- The request shape sent to `addAssetFolders`
(`IAddOrModifyAssetFolderData`): name, external id, nested folders. -/
inductive ReqForest where
  | nil
  | cons (name : String) (externalId : Option String) (children siblings : ReqForest)
  deriving DecidableEq, Repr

/-- The response shape of `addAssetFolders` (`AssetFolderModels.AssetFolder`):
server-assigned id, echoed external id, name, nested folders. -/
inductive RespForest where
  | nil
  | cons (id : String) (externalId : Option String) (name : String)
      (children siblings : RespForest)
  deriving DecidableEq, Repr

/-- One original folder node in the flattened (pre-order) folder list. -/
structure FlatFolder where
  id : String
  name : String
  externalId : Option String
  deriving DecidableEq, Repr

/-- A language of the target project as returned by `listLanguages`
(`LanguageModels.LanguageModel`, fields read by the import service). -/
structure TargetLanguage where
  id : String
  codename : String
  name : String
  isActive : Bool
  deriving DecidableEq, Repr

/-- The fallback language reference of an `addLanguage` request: by the default
language sentinel id, or by codename. -/
inductive FallbackRef where
  | byId (id : String)
  | byCodename (codename : String)
  deriving DecidableEq, Repr

/-- The data of an `addLanguage` request (`IAddLanguageData`). -/
structure AddLanguageData where
  codename : String
  name : String
  externalId : Option String
  fallbackLanguage : FallbackRef
  isActive : Bool
  deriving DecidableEq, Repr

/-- The data of an `addAsset` request (`IAddAssetRequestData`, the fields the
embedding tracks: file reference, external id, title and folder reference). -/
structure AddAssetData where
  fileReferenceId : String
  externalId : Option String
  title : String
  folderId : Option String
  deriving DecidableEq, Repr

/-- A network call against the target project management API, tagged with the
payload relevant to the specified properties. -/
inductive NetworkCall where
  | listLanguages
  | modifyLanguageActivate (codename : String)
  | modifyLanguageCodename (fromCodename toCodename : String)
  | addLanguage (data : AddLanguageData)
  | addAssetFolders (folders : ReqForest)
  | addTaxonomy (id : String)
  | addContentTypeSnippet (codename : String)
  | addContentType (id : String)
  | uploadBinaryFile (filename : String) (binaryData : List Nat)
  | addAsset (data : AddAssetData)
  | addContentItem (codename typeCodename : String)
  | upsertLanguageVariant (itemCodename languageCodename : String) (elements : JsonVal)
  | publishLanguageVariant (itemCodename languageCodename : String)
  | changeWorkflowStep (itemCodename languageCodename workflowStepId : String)
  deriving DecidableEq, Repr

/-- An observable event of a run: a network call, a `processItem` invocation of
the `onImport` callback, or an `onUnsupportedBinaryFile` invocation (tagged
with the oversized asset id). -/
inductive Ev where
  | call (c : NetworkCall)
  | importCb (t : ActionType) (title : String)
  | unsupportedBinaryFile (assetId : String)
  deriving DecidableEq, Repr

/-- Per-kind inclusion predicates of the import configuration (`process`). -/
structure ProcessConfig where
  asset : Option (AssetContract → Bool)
  language : Option (LanguageContract → Bool)
  assetFolder : Option (String → Bool)
  contentType : Option (ContentTypeContract → Bool)
  contentItem : Option (ContentItemContract → Bool)
  contentTypeSnippet : Option (SnippetContract → Bool)
  languageVariant : Option (LanguageVariantContract → Bool)
  taxonomy : Option (TaxonomyContract → Bool)

/-- The import configuration (`IImportConfig`); the `onImport` and
`onUnsupportedBinaryFile` fields record whether those callbacks are
configured. -/
structure ImportConfig where
  enablePublish : Bool
  workflowIdForImportedItems : Option String
  fixLanguages : Bool
  process : Option ProcessConfig
  onImport : Bool
  onUnsupportedBinaryFile : Bool

/-- The non-folder collections of the import source (`importData`). -/
structure ImportData where
  languages : List LanguageContract
  taxonomies : List TaxonomyContract
  contentTypeSnippets : List SnippetContract
  contentTypes : List ContentTypeContract
  assets : List AssetContract
  contentItems : List ContentItemContract
  languageVariants : List LanguageVariantContract
  workflowSteps : List WorkflowStep
  deriving DecidableEq, Repr

/-- The full import source (`IImportSource`). -/
structure ImportSource where
  importData : ImportData
  assetFolders : Forest
  binaryFiles : List BinaryFile
  deriving DecidableEq, Repr

/-- Sentinel id of the default language (and default workflow). -/
def defaultLanguageId : String := "00000000-0000-0000-0000-000000000000"

/-- Name identifying the published workflow step. -/
def publishedWorkflowStepName : String := "Published"

/-- Maximum allowed size of an asset binary payload in bytes (1e8). -/
def maxAllowedAssetSizeInBytes : Nat := 100000000

/-- Modelled from the spec: the target-id lookup of
`idTranslateHelper.replaceIdReferencesWithNewId` (module `core`, not among the
given sources) — an original id present in the accumulated import results is
mapped to the corresponding `importedId`; other strings are left unchanged. -/
def translateId (items : List ImportItemResult) (s : String) : String :=
  match items.find? (fun m => m.originalId == s) with
  | some e => e.importId
  | none => s

/-- Modelled from the spec: `idTranslateHelper.replaceIdReferencesWithNewId`
(module `core`, not among the given sources) — replaces every reference to an
original id recorded in the accumulated import results with that entity
`importedId`, recursing into arrays and nested objects uniformly. -/
def replaceIdReferencesWithNewId (items : List ImportItemResult) : JsonVal → JsonVal
  | .jstr s => .jstr (translateId items s)
  | .jnum n => .jnum n
  | .jbool b => .jbool b
  | .jnull => .jnull
  | .jarrNil => .jarrNil
  | .jarrCons h t =>
      .jarrCons (replaceIdReferencesWithNewId items h) (replaceIdReferencesWithNewId items t)
  | .jobjNil => .jobjNil
  | .jobjCons k v r =>
      .jobjCons k (replaceIdReferencesWithNewId items v) (replaceIdReferencesWithNewId items r)

/-- Whether the string `s` occurs as a string leaf anywhere in the payload. -/
def occursIn (s : String) : JsonVal → Bool
  | .jstr t => t == s
  | .jarrCons h t => occursIn s h || occursIn s t
  | .jobjCons _ v r => occursIn s v || occursIn s r
  | _ => false

/-- Modelled from the spec: `translationHelper.replaceIdReferencesWithCodenames`
and `replaceIdReferencesWithExternalId` (module `core`, not among the given
sources), applied by `translateIds` — raw id references are normalized to the
referenced entity codename where one exists in the source collections, and
left unresolved otherwise.  Taxonomies, snippets and content types carry no
modelled cross-reference fields, so the external-id pass leaves the modelled
fields unchanged; language variant element payloads are resolved later via
the import results, matching the spec reference-resolution design. -/
def translateIds (source : ImportSource) : ImportSource :=
  let d := source.importData
  let languages := d.languages.map (fun l =>
    { l with fallbackLanguage :=
        { l.fallbackLanguage with
            codename := (d.languages.find? (fun m => m.id == l.fallbackLanguage.id)).map
              (fun m => m.codename) } })
  let contentItems := d.contentItems.map (fun c =>
    { c with typeRef :=
        { c.typeRef with
            codename := (d.contentTypes.find? (fun m => m.id == c.typeRef.id)).map
              (fun m => m.codename) } })
  let languageVariants := d.languageVariants.map (fun v =>
    { v with
        item := { v.item with
          codename := (d.contentItems.find? (fun m => m.id == v.item.id)).map
            (fun m => m.codename) },
        language := { v.language with
          codename := (d.languages.find? (fun m => m.id == v.language.id)).map
            (fun m => m.codename) } })
  { source with importData :=
      { d with languages := languages, contentItems := contentItems,
               languageVariants := languageVariants } }

/-- One step of the per-kind removal loop of `removeSkippedItemsFromImport`:
the loop iterates over the collection as it was when the loop started and, for
every item the predicate rejects, replaces the current collection by the
current collection filtered by id. -/
def filterById {α : Type} (getId : α → String) (f : α → Bool) (xs : List α) : List α :=
  xs.foldl (fun acc item =>
    if f item then acc else acc.filter (fun m => getId m != getId item)) xs

/-- The language-variant removal loop of `removeSkippedItemsFromImport`: for a
rejected variant the kept variants are those whose item id AND language id both
differ from the rejected variant. -/
def filterLanguageVariants (f : LanguageVariantContract → Bool)
    (xs : List LanguageVariantContract) : List LanguageVariantContract :=
  xs.foldl (fun acc item =>
    if f item then acc
    else acc.filter (fun m =>
      m.item.id != item.item.id && m.language.id != item.language.id)) xs

/-- Ids of the top-level (root) folders of a forest. -/
def rootIds : Forest → List String
  | .nil => []
  | .cons i _ _ _ sib => i :: rootIds sib

/-- Keep only top-level folders whose id satisfies `keep` (children follow
their root). -/
def filterForestTop (keep : String → Bool) : Forest → Forest
  | .nil => .nil
  | .cons i n e ch sib =>
      if keep i then .cons i n e ch (filterForestTop keep sib)
      else filterForestTop keep sib

/-- The asset-folder removal loop of `removeSkippedItemsFromImport`: iterates
over the top-level folders, filtering out rejected roots by id. -/
def filterAssetFolders (f : String → Bool) (fs : Forest) : Forest :=
  (rootIds fs).foldl (fun acc rid =>
    if f rid then acc else filterForestTop (fun i => i != rid) acc) fs

/-- `removeSkippedItemsFromImport`: applies the configured per-kind inclusion
predicates to the source collections. -/
def removeSkippedItemsFromImport (cfg : ImportConfig) (source : ImportSource) : ImportSource :=
  match cfg.process with
  | none => source
  | some p =>
    let d := source.importData
    let assets := match p.asset with
      | some f => filterById (fun a => a.id) f d.assets
      | none => d.assets
    let languages := match p.language with
      | some f => filterById (fun l => l.id) f d.languages
      | none => d.languages
    let assetFolders := match p.assetFolder with
      | some f => filterAssetFolders f source.assetFolders
      | none => source.assetFolders
    let contentTypes := match p.contentType with
      | some f => filterById (fun c => c.id) f d.contentTypes
      | none => d.contentTypes
    let contentItems := match p.contentItem with
      | some f => filterById (fun c => c.id) f d.contentItems
      | none => d.contentItems
    let contentTypeSnippets := match p.contentTypeSnippet with
      | some f => filterById (fun c => c.id) f d.contentTypeSnippets
      | none => d.contentTypeSnippets
    let languageVariants := match p.languageVariant with
      | some f => filterLanguageVariants f d.languageVariants
      | none => d.languageVariants
    let taxonomies := match p.taxonomy with
      | some f => filterById (fun t => t.id) f d.taxonomies
      | none => d.taxonomies
    { source with
        assetFolders := assetFolders,
        importData :=
          { d with assets := assets, languages := languages,
                   contentTypes := contentTypes, contentItems := contentItems,
                   contentTypeSnippets := contentTypeSnippets,
                   languageVariants := languageVariants, taxonomies := taxonomies } }

/-- The preprocessing `importAsync` performs before sequencing the stages:
first `translateIds`, then `removeSkippedItemsFromImport`. -/
def preprocessSource (cfg : ImportConfig) (source : ImportSource) : ImportSource :=
  removeSkippedItemsFromImport cfg (translateIds source)

/-- The preprocessing order the specification describes: filtering first, then
reference normalization.  Stated from the spec words for comparison with
`preprocessSource`. -/
def preprocessSpecOrder (cfg : ImportConfig) (source : ImportSource) : ImportSource :=
  translateIds (removeSkippedItemsFromImport cfg source)

/-- `setExternalIdForFolders`: recursively sets every folder external id to a
copy of its original id. -/
def setExternalIdForFolders : Forest → Forest
  | .nil => .nil
  | .cons i n _ ch sib =>
      .cons i n (some i) (setExternalIdForFolders ch) (setExternalIdForFolders sib)

/-- `mapAssetFolder` applied to every folder: builds the nested
`addAssetFolders` request from the folder contracts. -/
def mapAssetFolders : Forest → ReqForest
  | .nil => .nil
  | .cons _ n e ch sib => .cons n e (mapAssetFolders ch) (mapAssetFolders sib)

/-- `flattenAssetFolderContracts`: flattens the original folder tree in
pre-order (node, then children, then following siblings). -/
def flattenAssetFolderContracts : Forest → List FlatFolder
  | .nil => []
  | .cons i n e ch sib =>
      { id := i, name := n, externalId := e } ::
        (flattenAssetFolderContracts ch ++ flattenAssetFolderContracts sib)

/-- The oracle server `addAssetFolders` behaviour: the response mirrors the
request tree, echoing names and external ids and assigning each created folder
a fresh id via `gen` keyed by the folder external id. -/
def serverCreateFolders (gen : String → String) : ReqForest → RespForest
  | .nil => .nil
  | .cons n e ch sib =>
      .cons (gen (e.getD "")) e n (serverCreateFolders gen ch) (serverCreateFolders gen sib)

/-- `flattenAssetFolders`: walks the response tree in pre-order, matches every
response folder back against the flattened original list by external id
(a response folder with no match is a fatal error), and produces one import
result entry per response folder. -/
def flattenAssetFolders (originalItems : List FlatFolder) :
    RespForest → Except String (List ImportItemResult)
  | .nil => .ok []
  | .cons i e n ch sib =>
      match originalItems.find? (fun m => m.externalId == e) with
      | none => .error "Could not find original folder"
      | some originalFolder =>
        match flattenAssetFolders originalItems ch with
        | .error msg => .error msg
        | .ok chEntries =>
          match flattenAssetFolders originalItems sib with
          | .error msg => .error msg
          | .ok sibEntries =>
            .ok ({ kind := .assetFolder, imported := n, original := originalFolder.id,
                   importId := i, originalId := originalFolder.id } :: (chEntries ++ sibEntries))

/-- `importAssetFoldersAsync`: assigns external ids, submits the whole tree as
one request, and matches the mirrored response back against the flattened
original list to build one result entry per folder. -/
def importAssetFoldersAsync (cfg : ImportConfig) (gen : String → String)
    (assetFolders : Forest) : List Ev × Except String (List ImportItemResult) :=
  let folders := setExternalIdForFolders assetFolders
  let assetFoldersToAdd := mapAssetFolders folders
  let callEv := Ev.call (.addAssetFolders assetFoldersToAdd)
  let responseItems := serverCreateFolders gen assetFoldersToAdd
  match flattenAssetFolders (flattenAssetFolderContracts folders) responseItems with
  | .error msg => ([callEv], .error msg)
  | .ok importedFlattenedFolders =>
      (callEv ::
        (if cfg.onImport then
          importedFlattenedFolders.map (fun f => Ev.importCb .assetFolder f.imported)
        else []),
       .ok importedFlattenedFolders)

/-- An in-place modification of the target project language list performed by
`fixLanguageAsync` through `modifyLanguage`. -/
inductive LangOp where
  | activate (codename : String)
  | rename (fromCodename toCodename : String)
  deriving DecidableEq, Repr

/-- Applies one `modifyLanguage` operation to the target project languages. -/
def applyLangOp (langs : List TargetLanguage) : LangOp → List TargetLanguage
  | .activate c => langs.map (fun l => if l.codename == c then { l with isActive := true } else l)
  | .rename c c2 => langs.map (fun l => if l.codename == c then { l with codename := c2 } else l)

/-- The activation step of `fixLanguageAsync`: the events and operations of
reactivating an inactive target language matching the imported language
codename. -/
def fixActivation (currentLanguages : List TargetLanguage)
    (importLanguage : LanguageContract) : List Ev × List LangOp :=
  match currentLanguages.find? (fun m => m.codename == importLanguage.codename) with
  | some existingLanguage =>
      if !existingLanguage.isActive then
        ([Ev.call (.modifyLanguageActivate existingLanguage.codename)],
         [LangOp.activate existingLanguage.codename])
      else ([], [])
  | none => ([], [])

/-- `fixLanguageAsync`: reactivates an inactive target language matching
the imported language codename, and renames the target default language
codename to the source when they differ and the source codename is free.
Decisions use the fetched language list; the returned operations are the
`modifyLanguage` calls issued against the server. -/
def fixLanguageAsync (currentLanguages : List TargetLanguage)
    (importLanguage : LanguageContract) : List Ev × Except String (List LangOp) :=
  let activation := fixActivation currentLanguages importLanguage
  if importLanguage.isDefault then
    match currentLanguages.find? (fun m => m.id == importLanguage.id) with
    | none => (activation.fst, .error "Invalid default existing language")
    | some defaultExistingLanguage =>
        if importLanguage.codename ≠ defaultExistingLanguage.codename then
          if (currentLanguages.find? (fun m => m.codename == importLanguage.codename)).isNone then
            (activation.fst ++
              [Ev.call (.modifyLanguageCodename defaultExistingLanguage.codename
                importLanguage.codename)],
             .ok (activation.snd ++
              [LangOp.rename defaultExistingLanguage.codename importLanguage.codename]))
          else (activation.fst, .ok activation.snd)
        else (activation.fst, .ok activation.snd)
  else (activation.fst, .ok activation.snd)

/-- The data-building tail of `tryGetLanguage`: requires the fallback language
codename attached by the codename translator, and resolves the fallback to the
default-language sentinel when it is the language itself. -/
def tryGetLanguageData (importLanguage : LanguageContract) :
    Except String (Option AddLanguageData) :=
  match importLanguage.fallbackLanguage.codename with
  | none => .error "Language has unset codename"
  | some fallbackLanguageCodename =>
      .ok (some
        { codename := importLanguage.codename
          name := importLanguage.name
          externalId := importLanguage.externalId
          fallbackLanguage :=
            if importLanguage.codename == fallbackLanguageCodename then
              .byId defaultLanguageId
            else .byCodename fallbackLanguageCodename
          isActive := importLanguage.isActive })

/-- `tryGetLanguage`: skip the language (`ok none`) if one with the same
codename already exists in the target; for the default language (sentinel id)
fail fatally when the target default language codename differs; otherwise
build the `addLanguage` data. -/
def tryGetLanguage (currentLanguages : List TargetLanguage)
    (importLanguage : LanguageContract) : Except String (Option AddLanguageData) :=
  match currentLanguages.find? (fun m => m.codename == importLanguage.codename) with
  | some _ => .ok none
  | none =>
      if importLanguage.id == defaultLanguageId then
        match currentLanguages.find? (fun m => m.id == defaultLanguageId) with
        | some defaultCurrentLanguage =>
            if defaultCurrentLanguage.codename ≠ importLanguage.codename then
              .error "Codename of default language from imported data does not match target project"
            else tryGetLanguageData importLanguage
        | none => tryGetLanguageData importLanguage
      else tryGetLanguageData importLanguage

/-- The fix step at the head of each iteration of the language loop: when
fix-mode is on, runs `fixLanguageAsync` on the last fetched snapshot, applies
its operations to the server state and re-fetches the language list. -/
def languageFixStep (cfg : ImportConfig) (snapshot server : List TargetLanguage)
    (language : LanguageContract) :
    List Ev × Except String (List TargetLanguage × List TargetLanguage) :=
  if cfg.fixLanguages then
    match fixLanguageAsync snapshot language with
    | (evs, .error msg) => (evs, .error msg)
    | (evs, .ok ops) =>
        let server2 := ops.foldl applyLangOp server
        (evs ++ [Ev.call .listLanguages], .ok (server2, server2))
  else ([], .ok (snapshot, server))

/-- The per-language loop of `importLanguagesAsync`.  `snapshot` is the
language list of the last `listLanguages` response (re-fetched after each fix
when fix-mode is on, otherwise the initial fetch for the whole loop);
`server` is the target project current language state. -/
def importLanguagesLoop (cfg : ImportConfig) (gen : String → String)
    (snapshot server : List TargetLanguage) :
    List LanguageContract → List Ev × Except String (List ImportItemResult)
  | [] => ([], .ok [])
  | language :: rest =>
    match languageFixStep cfg snapshot server language with
    | (tFix, .error msg) => (tFix, .error msg)
    | (tFix, .ok (snapshot2, server2)) =>
      match tryGetLanguage snapshot2 language with
      | .error msg => (tFix, .error msg)
      | .ok none =>
          let restRun := importLanguagesLoop cfg gen snapshot2 server2 rest
          (tFix ++ restRun.fst, restRun.snd)
      | .ok (some processedLanguageData) =>
          let newLang : TargetLanguage :=
            { id := gen language.id, codename := processedLanguageData.codename,
              name := processedLanguageData.name,
              isActive := processedLanguageData.isActive }
          let entry : ImportItemResult :=
            { kind := .language, imported := language.name, original := language.id,
              importId := gen language.id, originalId := language.id }
          let tAdd := Ev.call (.addLanguage processedLanguageData) ::
            (if cfg.onImport then [Ev.importCb .language language.name] else [])
          let restRun := importLanguagesLoop cfg gen snapshot2 (server2 ++ [newLang]) rest
          (tFix ++ tAdd ++ restRun.fst, restRun.snd.map (fun rs => entry :: rs))

/-- `importLanguagesAsync`: fetches the target project languages once, then
processes every language of the source in order. -/
def importLanguagesAsync (cfg : ImportConfig) (gen : String → String)
    (targetLangs : List TargetLanguage) (languages : List LanguageContract) :
    List Ev × Except String (List ImportItemResult) :=
  let run := importLanguagesLoop cfg gen targetLangs targetLangs languages
  (Ev.call .listLanguages :: run.fst, run.snd)

/-- `importTaxonomiesAsync`: one `addTaxonomy` call per taxonomy, one result
entry each. -/
def importTaxonomiesAsync (cfg : ImportConfig) (gen : String → String) :
    List TaxonomyContract → List Ev × List ImportItemResult
  | [] => ([], [])
  | taxonomy :: rest =>
      let t := Ev.call (.addTaxonomy taxonomy.id) ::
        (if cfg.onImport then [Ev.importCb .taxonomy taxonomy.name] else [])
      let entry : ImportItemResult :=
        { kind := .taxonomy, imported := taxonomy.name, original := taxonomy.id,
          importId := gen taxonomy.id, originalId := taxonomy.id }
      let restRun := importTaxonomiesAsync cfg gen rest
      (t ++ restRun.fst, entry :: restRun.snd)

/-- `importContentTypeSnippetsAsync`: one `addContentTypeSnippet` call per
snippet, one result entry each (the caller discards the returned entries). -/
def importContentTypeSnippetsAsync (cfg : ImportConfig) (gen : String → String) :
    List SnippetContract → List Ev × List ImportItemResult
  | [] => ([], [])
  | snippet :: rest =>
      let t := Ev.call (.addContentTypeSnippet snippet.codename) ::
        (if cfg.onImport then [Ev.importCb .contentTypeSnippet snippet.name] else [])
      let entry : ImportItemResult :=
        { kind := .contentTypeSnippet, imported := snippet.name, original := snippet.id,
          importId := gen snippet.id, originalId := snippet.id }
      let restRun := importContentTypeSnippetsAsync cfg gen rest
      (t ++ restRun.fst, entry :: restRun.snd)

/-- `importContentTypesAsync`: one `addContentType` call per content type, one
result entry each (the caller discards the returned entries). -/
def importContentTypesAsync (cfg : ImportConfig) (gen : String → String) :
    List ContentTypeContract → List Ev × List ImportItemResult
  | [] => ([], [])
  | contentType :: rest =>
      let t := Ev.call (.addContentType contentType.id) ::
        (if cfg.onImport then [Ev.importCb .contentType contentType.name] else [])
      let entry : ImportItemResult :=
        { kind := .contentType, imported := contentType.name, original := contentType.id,
          importId := gen contentType.id, originalId := contentType.id }
      let restRun := importContentTypesAsync cfg gen rest
      (t ++ restRun.fst, entry :: restRun.snd)

/-- `getAddAssetModel`: builds the `addAsset` request from the asset contract
and the uploaded file reference, replacing original-id references (the folder
reference) with new ids from the accumulated import results. -/
def getAddAssetModel (assetContract : AssetContract) (binaryFileId : String)
    (currentItems : List ImportItemResult) : AddAssetData :=
  { fileReferenceId := binaryFileId
    externalId := assetContract.externalId
    title := assetContract.title
    folderId := assetContract.folderId.map (translateId currentItems) }

/-- `importAssetsAsync`: for every asset, requires its companion binary file
(fatal when missing), strips the payload of files at or above the size ceiling
(invoking the unsupported-file callback when configured), uploads the payload,
then creates the asset referencing the uploaded file. -/
def importAssetsAsync (cfg : ImportConfig) (gen : String → String)
    (binaryFiles : List BinaryFile) (currentItems : List ImportItemResult) :
    List AssetContract → List Ev × Except String (List ImportItemResult)
  | [] => ([], .ok [])
  | asset :: rest =>
      match binaryFiles.find? (fun m => m.asset.id == asset.id) with
      | none => ([], .error "Could not find binary file for asset")
      | some binaryFile =>
        let oversized := maxAllowedAssetSizeInBytes ≤ binaryFile.asset.size
        let tUnsupported :=
          if oversized then
            if cfg.onUnsupportedBinaryFile then
              [Ev.unsupportedBinaryFile binaryFile.asset.id]
            else []
          else []
        let binaryDataToUpload := if oversized then [] else binaryFile.binaryData
        let uploadedFileId := gen (String.append "file-" asset.id)
        let assetData := getAddAssetModel asset uploadedFileId currentItems
        let t := tUnsupported ++
          [Ev.call (.uploadBinaryFile asset.fileName binaryDataToUpload),
           Ev.call (.addAsset assetData)] ++
          (if cfg.onImport then [Ev.importCb .asset asset.fileName] else [])
        let entry : ImportItemResult :=
          { kind := .asset, imported := asset.fileName, original := asset.id,
            importId := gen asset.id, originalId := asset.id }
        let restRun := importAssetsAsync cfg gen binaryFiles currentItems rest
        (t ++ restRun.fst, restRun.snd.map (fun rs => entry :: rs))

/-- `importContentItemAsync`: requires the type codename attached by the
codename translator (fatal when unset), then creates one content item per
contract. -/
def importContentItemAsync (cfg : ImportConfig) (gen : String → String) :
    List ContentItemContract → List Ev × Except String (List ImportItemResult)
  | [] => ([], .ok [])
  | contentItem :: rest =>
      match contentItem.typeRef.codename with
      | none => ([], .error "Content item has unset type codename")
      | some typeCodename =>
        let t := Ev.call (.addContentItem contentItem.codename typeCodename) ::
          (if cfg.onImport then [Ev.importCb .contentItem contentItem.name] else [])
        let entry : ImportItemResult :=
          { kind := .contentItem, imported := contentItem.name, original := contentItem.id,
            importId := gen contentItem.id, originalId := contentItem.id }
        let restRun := importContentItemAsync cfg gen rest
        (t ++ restRun.fst, restRun.snd.map (fun rs => entry :: rs))

/-- The in-place id translation `importLanguageVariantsAsync` applies to a
language variant before the upsert: every original-id reference in the variant
(its item, language and workflow-step references and, recursively, its element
payload) is replaced with the matching new id from the accumulated import
results.  Modelled from the spec for the `core` helper. -/
def translateVariant (currentItems : List ImportItemResult)
    (v : LanguageVariantContract) : LanguageVariantContract :=
  { item := { v.item with id := translateId currentItems v.item.id }
    language := { v.language with id := translateId currentItems v.language.id }
    workflowStep := { v.workflowStep with id := translateId currentItems v.workflowStep.id }
    elements := replaceIdReferencesWithNewId currentItems v.elements }

/-- `importLanguageVariantsAsync`: requires item and language codenames (fatal
when missing), replaces original-id references with new ids, and upserts the
variant elements by item and language codename.  The returned pair carries
the result entries and the translated variants (the source mutates the variant
objects in place, and the publish and workflow passes observe the mutation). -/
def importLanguageVariantsAsync (cfg : ImportConfig) (gen : String → String)
    (currentItems : List ImportItemResult) :
    List LanguageVariantContract →
      List Ev × Except String (List ImportItemResult × List LanguageVariantContract)
  | [] => ([], .ok ([], []))
  | languageVariant :: rest =>
      match languageVariant.item.codename with
      | none => ([], .error "Missing item codename for item")
      | some itemCodename =>
        match languageVariant.language.codename with
        | none => ([], .error "Missing language codename for item")
        | some languageCodename =>
          let v2 := translateVariant currentItems languageVariant
          let title := String.append itemCodename (String.append " " languageCodename)
          let t := Ev.call (.upsertLanguageVariant itemCodename languageCodename v2.elements) ::
            (if cfg.onImport then [Ev.importCb .languageVariant title] else [])
          let entry : ImportItemResult :=
            { kind := .languageVariant, imported := title, original := v2.item.id,
              importId := v2.item.id, originalId := v2.item.id }
          let restRun := importLanguageVariantsAsync cfg gen currentItems rest
          (t ++ restRun.fst,
           restRun.snd.map (fun p => (entry :: p.fst, v2 :: p.snd)))

/-- `getPublishedWorkflowStep`: the first workflow step named `Published`. -/
def getPublishedWorkflowStep (workflowSteps : List WorkflowStep) : Option WorkflowStep :=
  workflowSteps.find? (fun m => m.name == publishedWorkflowStepName)

/-- The per-item loop of `publishLanguageVariantsAsync`: requires item and
language codenames (fatal when missing) and issues one publish call per item. -/
def publishLoop (cfg : ImportConfig) :
    List LanguageVariantContract → List Ev × Except String Unit
  | [] => ([], .ok ())
  | itemToPublish :: rest =>
      match itemToPublish.item.codename with
      | none => ([], .error "Missing item codename for item")
      | some itemCodename =>
        match itemToPublish.language.codename with
        | none => ([], .error "Missing language codename for item")
        | some languageCodename =>
          let title := String.append itemCodename (String.append " " languageCodename)
          let t := Ev.call (.publishLanguageVariant itemCodename languageCodename) ::
            (if cfg.onImport then [Ev.importCb .publish title] else [])
          let restRun := publishLoop cfg rest
          (t ++ restRun.fst, restRun.snd)

/-- `publishLanguageVariantsAsync`: returns silently when the supplied workflow
steps contain no step named `Published` or when no variant recorded workflow
step matches it; otherwise publishes every matching variant. -/
def publishLanguageVariantsAsync (cfg : ImportConfig)
    (languageVariants : List LanguageVariantContract)
    (workflowSteps : List WorkflowStep) : List Ev × Except String Unit :=
  match getPublishedWorkflowStep workflowSteps with
  | none => ([], .ok ())
  | some publishedWorkflowStep =>
      let itemsToPublish :=
        languageVariants.filter (fun m => m.workflowStep.id == publishedWorkflowStep.id)
      if itemsToPublish.isEmpty then ([], .ok ())
      else publishLoop cfg itemsToPublish

/-- `moveLanguageVariantsToCustomWorkflowStepAsync`: moves every imported
variant to the configured workflow step, requiring item and language codenames
(fatal when missing). -/
def moveLanguageVariantsToCustomWorkflowStepAsync (cfg : ImportConfig)
    (workflowStepId : String) :
    List LanguageVariantContract → List Ev × Except String Unit
  | [] => ([], .ok ())
  | item :: rest =>
      match item.item.codename with
      | none => ([], .error "Missing item codename for item")
      | some itemCodename =>
        match item.language.codename with
        | none => ([], .error "Missing language codename for item")
        | some languageCodename =>
          let title := String.append itemCodename (String.append " " languageCodename)
          let t := Ev.call (.changeWorkflowStep itemCodename languageCodename workflowStepId) ::
            (if cfg.onImport then [Ev.importCb .changeWorkflowStep title] else [])
          let restRun := moveLanguageVariantsToCustomWorkflowStepAsync cfg workflowStepId rest
          (t ++ restRun.fst, restRun.snd)

/-- Sequencing of one stage after the accumulated run: events accumulate in
order; an error aborts with the events produced so far. -/
def seqE {α β : Type} (x : List Ev × Except String α)
    (f : α → List Ev × Except String β) : List Ev × Except String β :=
  match x with
  | (t, .error msg) => (t, .error msg)
  | (t, .ok a) =>
      let run := f a
      (t ++ run.fst, run.snd)

/-- `Forest.nil` test (the source gates the stage on `assetFolders.length`). -/
def Forest.isNil : Forest → Bool
  | .nil => true
  | .cons _ _ _ _ _ => false

/-- The stage sequencing of `importAsync` on an already-preprocessed source:
asset folders, languages, taxonomies, content type snippets, content types,
assets, content items, language variants, then the optional publish pass and
the optional workflow-step move.  Every stage except language variants is
gated on its input collection being non-empty (the language-variants gate of
the source tests the array truthiness, which always passes); snippet and
content-type results are computed but never appended to the returned list. -/
def importStagesAsync (cfg : ImportConfig) (gen : String → String)
    (targetLangs : List TargetLanguage) (s : ImportSource) :
    List Ev × Except String (List ImportItemResult) :=
  let d := s.importData
  seqE (if s.assetFolders.isNil then ([], .ok [])
        else importAssetFoldersAsync cfg gen s.assetFolders) (fun rF =>
  seqE (if d.languages.isEmpty then ([], .ok [])
        else importLanguagesAsync cfg gen targetLangs d.languages) (fun rL =>
  seqE (if d.taxonomies.isEmpty then ([], .ok [])
        else ((importTaxonomiesAsync cfg gen d.taxonomies).fst,
              .ok (importTaxonomiesAsync cfg gen d.taxonomies).snd)) (fun rT =>
  seqE (if d.contentTypeSnippets.isEmpty then ([], .ok [])
        else ((importContentTypeSnippetsAsync cfg gen d.contentTypeSnippets).fst,
              .ok (importContentTypeSnippetsAsync cfg gen d.contentTypeSnippets).snd))
    (fun _rS =>
  seqE (if d.contentTypes.isEmpty then ([], .ok [])
        else ((importContentTypesAsync cfg gen d.contentTypes).fst,
              .ok (importContentTypesAsync cfg gen d.contentTypes).snd)) (fun _rC =>
  seqE (if d.assets.isEmpty then ([], .ok [])
        else importAssetsAsync cfg gen s.binaryFiles (rF ++ rL ++ rT) d.assets) (fun rA =>
  seqE (if d.contentItems.isEmpty then ([], .ok [])
        else importContentItemAsync cfg gen d.contentItems) (fun rI =>
  seqE (importLanguageVariantsAsync cfg gen (rF ++ rL ++ rT ++ rA ++ rI)
          d.languageVariants) (fun rv =>
  seqE (if cfg.enablePublish then
          publishLanguageVariantsAsync cfg rv.snd d.workflowSteps
        else ([], .ok ())) (fun _ =>
  seqE (match cfg.workflowIdForImportedItems with
        | some workflowStepId =>
            moveLanguageVariantsToCustomWorkflowStepAsync cfg workflowStepId rv.snd
        | none => ([], .ok ())) (fun _ =>
  ([], .ok (rF ++ rL ++ rT ++ rA ++ rI ++ rv.fst))))))))))))

/-- `importAsync`: translates ids to codenames, removes skipped items, then
runs the import stages in the fixed order. -/
def importAsync (cfg : ImportConfig) (gen : String → String)
    (targetLangs : List TargetLanguage) (sourceData : ImportSource) :
    List Ev × Except String (List ImportItemResult) :=
  importStagesAsync cfg gen targetLangs (preprocessSource cfg sourceData)

/-- The stage rank of a network call in the fixed total order of stages. -/
def callRank : NetworkCall → Nat
  | .addAssetFolders _ => 0
  | .listLanguages => 1
  | .modifyLanguageActivate _ => 1
  | .modifyLanguageCodename _ _ => 1
  | .addLanguage _ => 1
  | .addTaxonomy _ => 2
  | .addContentTypeSnippet _ => 3
  | .addContentType _ => 4
  | .uploadBinaryFile _ _ => 5
  | .addAsset _ => 5
  | .addContentItem _ _ => 6
  | .upsertLanguageVariant _ _ _ => 7
  | .publishLanguageVariant _ _ => 8
  | .changeWorkflowStep _ _ _ => 9

/-- The stage rank of an observer action type. -/
def actionRank : ActionType → Nat
  | .assetFolder => 0
  | .language => 1
  | .taxonomy => 2
  | .contentTypeSnippet => 3
  | .contentType => 4
  | .asset => 5
  | .contentItem => 6
  | .languageVariant => 7
  | .publish => 8
  | .changeWorkflowStep => 9

/-- The stage rank of an event. -/
def evRank : Ev → Nat
  | .call c => callRank c
  | .importCb t _ => actionRank t
  | .unsupportedBinaryFile _ => 5

/-- Whether an event is a network call of the given stage rank. -/
def isCallOfRank (k : Nat) : Ev → Bool
  | .call c => callRank c == k
  | _ => false

/-- All events of a trace belong to the stage of rank `k`. -/
def ranksAt (k : Nat) (t : List Ev) : Prop :=
  ∀ e ∈ t, evRank e = k

theorem seqE_eq_ok {α β : Type} {x : List Ev × Except String α}
    {f : α → List Ev × Except String β} {tr : List Ev} {b : β}
    (h : seqE x f = (tr, Except.ok b)) :
    ∃ t1 a t2, x = (t1, Except.ok a) ∧ f a = (t2, Except.ok b) ∧ tr = t1 ++ t2 := by
  rcases x with ⟨t, ex⟩
  cases ex with
  | error msg => simp [seqE] at h
  | ok a =>
      simp only [seqE] at h
      rw [Prod.mk.injEq] at h
      refine ⟨t, a, (f a).fst, rfl, ?_, h.1.symm⟩
      rw [← h.2]

theorem seqE_eq_error {α β : Type} {x : List Ev × Except String α}
    {f : α → List Ev × Except String β} {tr : List Ev} {msg : String}
    (h : seqE x f = (tr, Except.error msg)) :
    x = (tr, Except.error msg) ∨
      ∃ t1 a t2, x = (t1, Except.ok a) ∧ f a = (t2, Except.error msg) ∧ tr = t1 ++ t2 := by
  rcases x with ⟨t, ex⟩
  cases ex with
  | error m =>
      left
      simp only [seqE] at h
      rw [Prod.mk.injEq] at h
      obtain ⟨h1, h2⟩ := h
      injection h2 with hm
      rw [h1, hm]
  | ok a =>
      right
      simp only [seqE] at h
      rw [Prod.mk.injEq] at h
      refine ⟨t, a, (f a).fst, rfl, ?_, h.1.symm⟩
      rw [← h.2]

theorem seqE_of_ok {α β : Type} {x : List Ev × Except String α} {t1 : List Ev} {a : α}
    (f : α → List Ev × Except String β) (hx : x = (t1, Except.ok a)) :
    seqE x f = (t1 ++ (f a).fst, (f a).snd) := by
  rw [hx]
  simp [seqE]

theorem seqE_of_error {α β : Type} {x : List Ev × Except String α} {t1 : List Ev}
    {msg : String} (f : α → List Ev × Except String β)
    (hx : x = (t1, Except.error msg)) :
    seqE x f = (t1, Except.error msg) := by
  rw [hx]
  simp [seqE]

theorem ranksAt_append {k : Nat} {t1 t2 : List Ev}
    (h1 : ranksAt k t1) (h2 : ranksAt k t2) : ranksAt k (t1 ++ t2) := by
  intro e he
  rcases List.mem_append.mp he with h | h
  · exact h1 e h
  · exact h2 e h

theorem ranksAt_nil {k : Nat} : ranksAt k [] := by
  intro e he
  cases he

theorem ranksAt_cons {k : Nat} {e0 : Ev} {t : List Ev}
    (h0 : evRank e0 = k) (h : ranksAt k t) : ranksAt k (e0 :: t) := by
  intro e he
  rcases List.mem_cons.mp he with rfl | hm
  · exact h0
  · exact h e hm

theorem ranksAt_singleton {k : Nat} {e0 : Ev} (h0 : evRank e0 = k) :
    ranksAt k [e0] :=
  ranksAt_cons h0 ranksAt_nil

theorem ranksAt_map_importCb {k : Nat} {t : ActionType} (h : actionRank t = k)
    {α : Type} (g : α → String) (xs : List α) :
    ranksAt k (xs.map (fun x => Ev.importCb t (g x))) := by
  intro e he
  rcases List.mem_map.mp he with ⟨x, _, rfl⟩
  exact h

theorem ranksAt_if {k : Nat} {c : Prop} [Decidable c] {t1 t2 : List Ev}
    (h1 : ranksAt k t1) (h2 : ranksAt k t2) : ranksAt k (if c then t1 else t2) := by
  by_cases hc : c
  · rw [if_pos hc]; exact h1
  · rw [if_neg hc]; exact h2

theorem importAssetFoldersAsync_rank (cfg : ImportConfig) (gen : String → String)
    (assetFolders : Forest) :
    ranksAt 0 (importAssetFoldersAsync cfg gen assetFolders).fst := by
  intro e he
  simp only [importAssetFoldersAsync] at he
  split at he
  · rcases List.mem_singleton.mp he with rfl
    rfl
  · rcases List.mem_cons.mp he with rfl | hm
    · rfl
    · revert hm
      refine ranksAt_if ?_ ranksAt_nil e
      exact ranksAt_map_importCb rfl (fun (f : ImportItemResult) => f.imported) _

theorem fixActivation_rank (currentLanguages : List TargetLanguage)
    (importLanguage : LanguageContract) :
    ranksAt 1 (fixActivation currentLanguages importLanguage).fst := by
  intro e he
  unfold fixActivation at he
  split at he
  · split at he
    · rcases List.mem_singleton.mp he with rfl
      rfl
    · cases he
  · cases he

theorem fixLanguageAsync_rank (currentLanguages : List TargetLanguage)
    (importLanguage : LanguageContract) :
    ranksAt 1 (fixLanguageAsync currentLanguages importLanguage).fst := by
  intro e he
  unfold fixLanguageAsync at he
  split at he
  · split at he
    · exact fixActivation_rank currentLanguages importLanguage e he
    · split at he
      · split at he
        · rcases List.mem_append.mp he with hm | hm
          · exact fixActivation_rank currentLanguages importLanguage e hm
          · rcases List.mem_singleton.mp hm with rfl
            rfl
        · exact fixActivation_rank currentLanguages importLanguage e he
      · exact fixActivation_rank currentLanguages importLanguage e he
  · exact fixActivation_rank currentLanguages importLanguage e he

theorem ranksAt_ite_nil {k : Nat} {c : Prop} [Decidable c] {t : List Ev}
    (h : ranksAt k t) : ranksAt k (if c then t else []) :=
  ranksAt_if h ranksAt_nil

theorem languageFixStep_rank (cfg : ImportConfig) (snapshot server : List TargetLanguage)
    (language : LanguageContract) :
    ranksAt 1 (languageFixStep cfg snapshot server language).fst := by
  have hr := fixLanguageAsync_rank snapshot language
  simp only [languageFixStep]
  split
  · rcases hfix : fixLanguageAsync snapshot language with ⟨evs, ex⟩
    rw [hfix] at hr
    cases ex with
    | error msg => simpa using hr
    | ok ops => exact ranksAt_append (by simpa using hr) (ranksAt_singleton rfl)
  · exact ranksAt_nil

theorem importLanguagesLoop_rank (cfg : ImportConfig) (gen : String → String)
    (snapshot server : List TargetLanguage) (langs : List LanguageContract) :
    ranksAt 1 (importLanguagesLoop cfg gen snapshot server langs).fst := by
  induction langs generalizing snapshot server with
  | nil => exact ranksAt_nil
  | cons language rest ih =>
      have hfr := languageFixStep_rank cfg snapshot server language
      simp only [importLanguagesLoop]
      split
      next tFix msg heq =>
        rw [heq] at hfr
        exact hfr
      next tFix snapshot2 server2 heq =>
        rw [heq] at hfr
        split
        · exact hfr
        · exact ranksAt_append hfr (ih _ _)
        · intro e he
          simp only [List.mem_append, List.mem_cons] at he
          rcases he with (hm | rfl | hm) | hm
          · exact hfr e hm
          · rfl
          · exact ranksAt_ite_nil (ranksAt_singleton rfl) e hm
          · exact ih _ _ e hm

theorem importLanguagesAsync_rank (cfg : ImportConfig) (gen : String → String)
    (targetLangs : List TargetLanguage) (languages : List LanguageContract) :
    ranksAt 1 (importLanguagesAsync cfg gen targetLangs languages).fst := by
  simp only [importLanguagesAsync]
  exact ranksAt_cons rfl (importLanguagesLoop_rank cfg gen targetLangs targetLangs languages)


theorem importTaxonomiesAsync_rank (cfg : ImportConfig) (gen : String → String)
    (xs : List TaxonomyContract) :
    ranksAt 2 (importTaxonomiesAsync cfg gen xs).fst := by
  induction xs with
  | nil => exact ranksAt_nil
  | cons x rest ih =>
      simp only [importTaxonomiesAsync]
      refine ranksAt_append ?_ ih
      exact ranksAt_cons rfl (ranksAt_ite_nil (ranksAt_singleton rfl))

theorem importContentTypeSnippetsAsync_rank (cfg : ImportConfig) (gen : String → String)
    (xs : List SnippetContract) :
    ranksAt 3 (importContentTypeSnippetsAsync cfg gen xs).fst := by
  induction xs with
  | nil => exact ranksAt_nil
  | cons x rest ih =>
      simp only [importContentTypeSnippetsAsync]
      refine ranksAt_append ?_ ih
      exact ranksAt_cons rfl (ranksAt_ite_nil (ranksAt_singleton rfl))

theorem importContentTypesAsync_rank (cfg : ImportConfig) (gen : String → String)
    (xs : List ContentTypeContract) :
    ranksAt 4 (importContentTypesAsync cfg gen xs).fst := by
  induction xs with
  | nil => exact ranksAt_nil
  | cons x rest ih =>
      simp only [importContentTypesAsync]
      refine ranksAt_append ?_ ih
      exact ranksAt_cons rfl (ranksAt_ite_nil (ranksAt_singleton rfl))

theorem importAssetsAsync_rank (cfg : ImportConfig) (gen : String → String)
    (binaryFiles : List BinaryFile) (currentItems : List ImportItemResult)
    (xs : List AssetContract) :
    ranksAt 5 (importAssetsAsync cfg gen binaryFiles currentItems xs).fst := by
  induction xs with
  | nil => exact ranksAt_nil
  | cons x rest ih =>
      simp only [importAssetsAsync]
      split
      · exact ranksAt_nil
      · refine ranksAt_append ?_ ih
        refine ranksAt_append ?_ (ranksAt_ite_nil (ranksAt_singleton rfl))
        exact ranksAt_append (ranksAt_ite_nil (ranksAt_ite_nil (ranksAt_singleton rfl)))
          (ranksAt_cons rfl (ranksAt_singleton rfl))

theorem importContentItemAsync_rank (cfg : ImportConfig) (gen : String → String)
    (xs : List ContentItemContract) :
    ranksAt 6 (importContentItemAsync cfg gen xs).fst := by
  induction xs with
  | nil => exact ranksAt_nil
  | cons x rest ih =>
      simp only [importContentItemAsync]
      split
      · exact ranksAt_nil
      · refine ranksAt_append ?_ ih
        exact ranksAt_cons rfl (ranksAt_ite_nil (ranksAt_singleton rfl))

theorem importLanguageVariantsAsync_rank (cfg : ImportConfig) (gen : String → String)
    (currentItems : List ImportItemResult) (xs : List LanguageVariantContract) :
    ranksAt 7 (importLanguageVariantsAsync cfg gen currentItems xs).fst := by
  induction xs with
  | nil => exact ranksAt_nil
  | cons x rest ih =>
      simp only [importLanguageVariantsAsync]
      split
      · exact ranksAt_nil
      · split
        · exact ranksAt_nil
        · refine ranksAt_append ?_ ih
          exact ranksAt_cons rfl (ranksAt_ite_nil (ranksAt_singleton rfl))

theorem publishLoop_rank (cfg : ImportConfig) (xs : List LanguageVariantContract) :
    ranksAt 8 (publishLoop cfg xs).fst := by
  induction xs with
  | nil => exact ranksAt_nil
  | cons x rest ih =>
      simp only [publishLoop]
      split
      · exact ranksAt_nil
      · split
        · exact ranksAt_nil
        · refine ranksAt_append ?_ ih
          exact ranksAt_cons rfl (ranksAt_ite_nil (ranksAt_singleton rfl))

theorem publishLanguageVariantsAsync_rank (cfg : ImportConfig)
    (xs : List LanguageVariantContract) (steps : List WorkflowStep) :
    ranksAt 8 (publishLanguageVariantsAsync cfg xs steps).fst := by
  simp only [publishLanguageVariantsAsync]
  split
  · exact ranksAt_nil
  · split
    · exact ranksAt_nil
    · exact publishLoop_rank cfg _

theorem moveLanguageVariants_rank (cfg : ImportConfig) (workflowStepId : String)
    (xs : List LanguageVariantContract) :
    ranksAt 9 (moveLanguageVariantsToCustomWorkflowStepAsync cfg workflowStepId xs).fst := by
  induction xs with
  | nil => exact ranksAt_nil
  | cons x rest ih =>
      simp only [moveLanguageVariantsToCustomWorkflowStepAsync]
      split
      · exact ranksAt_nil
      · split
        · exact ranksAt_nil
        · refine ranksAt_append ?_ ih
          exact ranksAt_cons rfl (ranksAt_ite_nil (ranksAt_singleton rfl))


theorem importStages_ok_shape (cfg : ImportConfig) (gen : String → String)
    (tl : List TargetLanguage) (s : ImportSource) (tr : List Ev)
    (res : List ImportItemResult)
    (h : importStagesAsync cfg gen tl s = (tr, Except.ok res)) :
    ∃ (tF : List Ev) (rF : List ImportItemResult) (tL : List Ev)
      (rL : List ImportItemResult) (tT : List Ev) (rT : List ImportItemResult)
      (tS : List Ev) (rS : List ImportItemResult) (tC : List Ev)
      (rC : List ImportItemResult) (tA : List Ev) (rA : List ImportItemResult)
      (tI : List Ev) (rI : List ImportItemResult) (tV : List Ev)
      (rV : List ImportItemResult) (vs2 : List LanguageVariantContract)
      (tP tM : List Ev),
      (if s.assetFolders.isNil then ([], Except.ok [])
        else importAssetFoldersAsync cfg gen s.assetFolders) = (tF, Except.ok rF) ∧
      (if s.importData.languages.isEmpty then ([], Except.ok [])
        else importLanguagesAsync cfg gen tl s.importData.languages) = (tL, Except.ok rL) ∧
      (if s.importData.taxonomies.isEmpty then ([], Except.ok [])
        else ((importTaxonomiesAsync cfg gen s.importData.taxonomies).fst,
              Except.ok (importTaxonomiesAsync cfg gen s.importData.taxonomies).snd))
        = ((tT, Except.ok rT) : List Ev × Except String (List ImportItemResult)) ∧
      (if s.importData.contentTypeSnippets.isEmpty then ([], Except.ok [])
        else ((importContentTypeSnippetsAsync cfg gen s.importData.contentTypeSnippets).fst,
              Except.ok (importContentTypeSnippetsAsync cfg gen
                s.importData.contentTypeSnippets).snd))
        = ((tS, Except.ok rS) : List Ev × Except String (List ImportItemResult)) ∧
      (if s.importData.contentTypes.isEmpty then ([], Except.ok [])
        else ((importContentTypesAsync cfg gen s.importData.contentTypes).fst,
              Except.ok (importContentTypesAsync cfg gen s.importData.contentTypes).snd))
        = ((tC, Except.ok rC) : List Ev × Except String (List ImportItemResult)) ∧
      (if s.importData.assets.isEmpty then ([], Except.ok [])
        else importAssetsAsync cfg gen s.binaryFiles (rF ++ rL ++ rT) s.importData.assets)
        = (tA, Except.ok rA) ∧
      (if s.importData.contentItems.isEmpty then ([], Except.ok [])
        else importContentItemAsync cfg gen s.importData.contentItems) = (tI, Except.ok rI) ∧
      importLanguageVariantsAsync cfg gen (rF ++ rL ++ rT ++ rA ++ rI)
        s.importData.languageVariants = (tV, Except.ok (rV, vs2)) ∧
      (if cfg.enablePublish then publishLanguageVariantsAsync cfg vs2 s.importData.workflowSteps
        else ([], Except.ok ())) = (tP, Except.ok ()) ∧
      (match cfg.workflowIdForImportedItems with
        | some workflowStepId =>
            moveLanguageVariantsToCustomWorkflowStepAsync cfg workflowStepId vs2
        | none => ([], Except.ok ())) = (tM, Except.ok ()) ∧
      tr = tF ++ tL ++ tT ++ tS ++ tC ++ tA ++ tI ++ tV ++ tP ++ tM ∧
      res = rF ++ rL ++ rT ++ rA ++ rI ++ rV := by
  simp only [importStagesAsync] at h
  obtain ⟨tF, rF, t2, hF, h2, htr1⟩ := seqE_eq_ok h
  obtain ⟨tL, rL, t3, hL, h3, htr2⟩ := seqE_eq_ok h2
  obtain ⟨tT, rT, t4, hT, h4, htr3⟩ := seqE_eq_ok h3
  obtain ⟨tS, rS, t5, hS, h5, htr4⟩ := seqE_eq_ok h4
  obtain ⟨tC, rC, t6, hC, h6, htr5⟩ := seqE_eq_ok h5
  obtain ⟨tA, rA, t7, hA, h7, htr6⟩ := seqE_eq_ok h6
  obtain ⟨tI, rI, t8, hI, h8, htr7⟩ := seqE_eq_ok h7
  obtain ⟨tV, rv, t9, hV, h9, htr8⟩ := seqE_eq_ok h8
  obtain ⟨tP, u1, t10, hP, h10, htr9⟩ := seqE_eq_ok h9
  obtain ⟨tM, u2, t11, hM, h11, htr10⟩ := seqE_eq_ok h10
  rw [Prod.mk.injEq] at h11
  obtain ⟨ht11, hres⟩ := h11
  injection hres with hres
  refine ⟨tF, rF, tL, rL, tT, rT, tS, rS, tC, rC, tA, rA, tI, rI, tV, rv.fst, rv.snd,
    tP, tM, hF, hL, hT, hS, hC, hA, hI, hV, ?_, ?_, ?_, ?_⟩
  · cases u1
    exact hP
  · cases u2
    exact hM
  · subst htr1 htr2 htr3 htr4 htr5 htr6 htr7 htr8 htr9 htr10 ht11
    simp [List.append_assoc]
  · exact hres.symm


/-- All result entries of a list have the given entity kind. -/
def kindsAt (k : EntityKind) (rs : List ImportItemResult) : Prop :=
  ∀ r ∈ rs, r.kind = k

theorem kindsAt_nil {k : EntityKind} : kindsAt k [] := by
  intro r hr
  cases hr

theorem kindsAt_cons {k : EntityKind} {r0 : ImportItemResult} {rs : List ImportItemResult}
    (h0 : r0.kind = k) (h : kindsAt k rs) : kindsAt k (r0 :: rs) := by
  intro r hr
  rcases List.mem_cons.mp hr with rfl | hm
  · exact h0
  · exact h r hm

theorem kindsAt_append {k : EntityKind} {r1 r2 : List ImportItemResult}
    (h1 : kindsAt k r1) (h2 : kindsAt k r2) : kindsAt k (r1 ++ r2) := by
  intro r hr
  rcases List.mem_append.mp hr with hm | hm
  · exact h1 r hm
  · exact h2 r hm

theorem except_map_eq_ok {α β : Type} {f : α → β} {e : Except String α} {b : β}
    (h : Except.map f e = Except.ok b) : ∃ a, e = Except.ok a ∧ b = f a := by
  cases e with
  | error m => simp [Except.map] at h
  | ok a =>
      refine ⟨a, rfl, ?_⟩
      simp only [Except.map] at h
      injection h with h
      exact h.symm

theorem flattenAssetFolders_kinds (orig : List FlatFolder) (resp : RespForest)
    {entries : List ImportItemResult}
    (h : flattenAssetFolders orig resp = Except.ok entries) :
    kindsAt EntityKind.assetFolder entries := by
  induction resp generalizing entries with
  | nil =>
      simp only [flattenAssetFolders] at h
      injection h with h
      subst h
      exact kindsAt_nil
  | cons i e n ch sib ihc ihs =>
      simp only [flattenAssetFolders] at h
      cases hfind : orig.find? (fun m => m.externalId == e) with
      | none =>
          simp only [hfind] at h
          exact Except.noConfusion h
      | some o =>
          simp only [hfind] at h
          cases hch : flattenAssetFolders orig ch with
          | error m =>
              simp only [hch] at h
              exact Except.noConfusion h
          | ok chE =>
              simp only [hch] at h
              cases hsib : flattenAssetFolders orig sib with
              | error m =>
                  simp only [hsib] at h
                  exact Except.noConfusion h
              | ok sibE =>
                  simp only [hsib] at h
                  injection h with h
                  subst h
                  exact kindsAt_cons rfl (kindsAt_append (ihc hch) (ihs hsib))

theorem importAssetFoldersAsync_kinds (cfg : ImportConfig) (gen : String → String)
    (assetFolders : Forest) {tF : List Ev} {rF : List ImportItemResult}
    (h : importAssetFoldersAsync cfg gen assetFolders = (tF, Except.ok rF)) :
    kindsAt EntityKind.assetFolder rF := by
  simp only [importAssetFoldersAsync] at h
  split at h
  · rw [Prod.mk.injEq] at h
    cases h.2
  · rw [Prod.mk.injEq] at h
    obtain ⟨h1, h2⟩ := h
    injection h2 with h2
    subst h2
    next entries heq => exact flattenAssetFolders_kinds _ _ heq

theorem importLanguagesLoop_kinds (cfg : ImportConfig) (gen : String → String)
    (snapshot server : List TargetLanguage) (langs : List LanguageContract)
    {rs : List ImportItemResult}
    (h : (importLanguagesLoop cfg gen snapshot server langs).snd = Except.ok rs) :
    kindsAt EntityKind.language rs ∧
      ∀ r ∈ rs, r.originalId ∈ langs.map (fun l => l.id) := by
  induction langs generalizing snapshot server rs with
  | nil =>
      simp only [importLanguagesLoop] at h
      injection h with h
      subst h
      exact ⟨kindsAt_nil, by intro r hr; cases hr⟩
  | cons language rest ih =>
      simp only [importLanguagesLoop] at h
      split at h
      · cases h
      · split at h
        · cases h
        · obtain ⟨hk, hm⟩ := ih _ _ h
          refine ⟨hk, ?_⟩
          intro r hr
          simp only [List.map_cons, List.mem_cons]
          right
          exact hm r hr
        · obtain ⟨rs2, hrs2, hb⟩ := except_map_eq_ok h
          subst hb
          obtain ⟨hk, hm⟩ := ih _ _ hrs2
          refine ⟨kindsAt_cons rfl hk, ?_⟩
          intro r hr
          simp only [List.map_cons, List.mem_cons]
          rcases List.mem_cons.mp hr with rfl | hmem
          · left
            rfl
          · right
            exact hm r hmem

theorem importLanguagesAsync_kinds (cfg : ImportConfig) (gen : String → String)
    (targetLangs : List TargetLanguage) (languages : List LanguageContract)
    {tL : List Ev} {rL : List ImportItemResult}
    (h : importLanguagesAsync cfg gen targetLangs languages = (tL, Except.ok rL)) :
    kindsAt EntityKind.language rL ∧
      ∀ r ∈ rL, r.originalId ∈ languages.map (fun l => l.id) := by
  simp only [importLanguagesAsync] at h
  rw [Prod.mk.injEq] at h
  exact importLanguagesLoop_kinds cfg gen targetLangs targetLangs languages h.2

theorem importTaxonomiesAsync_kinds (cfg : ImportConfig) (gen : String → String)
    (xs : List TaxonomyContract) :
    kindsAt EntityKind.taxonomy (importTaxonomiesAsync cfg gen xs).snd ∧
      (importTaxonomiesAsync cfg gen xs).snd.length = xs.length := by
  induction xs with
  | nil => exact ⟨kindsAt_nil, rfl⟩
  | cons x rest ih =>
      simp only [importTaxonomiesAsync]
      exact ⟨kindsAt_cons rfl ih.1, by simp [ih.2]⟩

theorem importContentTypeSnippetsAsync_kinds (cfg : ImportConfig) (gen : String → String)
    (xs : List SnippetContract) :
    kindsAt EntityKind.contentTypeSnippet (importContentTypeSnippetsAsync cfg gen xs).snd := by
  induction xs with
  | nil => exact kindsAt_nil
  | cons x rest ih =>
      simp only [importContentTypeSnippetsAsync]
      exact kindsAt_cons rfl ih

theorem importContentTypesAsync_kinds (cfg : ImportConfig) (gen : String → String)
    (xs : List ContentTypeContract) :
    kindsAt EntityKind.contentType (importContentTypesAsync cfg gen xs).snd := by
  induction xs with
  | nil => exact kindsAt_nil
  | cons x rest ih =>
      simp only [importContentTypesAsync]
      exact kindsAt_cons rfl ih

theorem importAssetsAsync_kinds (cfg : ImportConfig) (gen : String → String)
    (binaryFiles : List BinaryFile) (currentItems : List ImportItemResult)
    (xs : List AssetContract) {rs : List ImportItemResult}
    (h : (importAssetsAsync cfg gen binaryFiles currentItems xs).snd = Except.ok rs) :
    kindsAt EntityKind.asset rs ∧ rs.length = xs.length := by
  induction xs generalizing rs with
  | nil =>
      simp only [importAssetsAsync] at h
      injection h with h
      subst h
      exact ⟨kindsAt_nil, rfl⟩
  | cons x rest ih =>
      simp only [importAssetsAsync] at h
      split at h
      · cases h
      · obtain ⟨rs2, hrs2, hb⟩ := except_map_eq_ok h
        subst hb
        obtain ⟨hk, hl⟩ := ih hrs2
        exact ⟨kindsAt_cons rfl hk, by simp [hl]⟩

theorem importContentItemAsync_kinds (cfg : ImportConfig) (gen : String → String)
    (xs : List ContentItemContract) {rs : List ImportItemResult}
    (h : (importContentItemAsync cfg gen xs).snd = Except.ok rs) :
    kindsAt EntityKind.contentItem rs ∧ rs.length = xs.length := by
  induction xs generalizing rs with
  | nil =>
      simp only [importContentItemAsync] at h
      injection h with h
      subst h
      exact ⟨kindsAt_nil, rfl⟩
  | cons x rest ih =>
      simp only [importContentItemAsync] at h
      split at h
      · cases h
      · obtain ⟨rs2, hrs2, hb⟩ := except_map_eq_ok h
        subst hb
        obtain ⟨hk, hl⟩ := ih hrs2
        exact ⟨kindsAt_cons rfl hk, by simp [hl]⟩

theorem importLanguageVariantsAsync_kinds (cfg : ImportConfig) (gen : String → String)
    (currentItems : List ImportItemResult) (xs : List LanguageVariantContract)
    {p : List ImportItemResult × List LanguageVariantContract}
    (h : (importLanguageVariantsAsync cfg gen currentItems xs).snd = Except.ok p) :
    kindsAt EntityKind.languageVariant p.fst ∧ p.fst.length = xs.length := by
  induction xs generalizing p with
  | nil =>
      simp only [importLanguageVariantsAsync] at h
      injection h with h
      subst h
      exact ⟨kindsAt_nil, rfl⟩
  | cons x rest ih =>
      simp only [importLanguageVariantsAsync] at h
      split at h
      · cases h
      · split at h
        · cases h
        · obtain ⟨p2, hp2, hb⟩ := except_map_eq_ok h
          subst hb
          obtain ⟨hk, hl⟩ := ih hp2
          exact ⟨kindsAt_cons rfl hk, by simp [hl]⟩


theorem importAssetFoldersAsync_hasCall (cfg : ImportConfig) (gen : String → String)
    (assetFolders : Forest) :
    ∃ e ∈ (importAssetFoldersAsync cfg gen assetFolders).fst, isCallOfRank 0 e = true := by
  simp only [importAssetFoldersAsync]
  split
  · exact ⟨Ev.call (.addAssetFolders (mapAssetFolders (setExternalIdForFolders assetFolders))),
      List.mem_singleton_self _, rfl⟩
  · exact ⟨Ev.call (.addAssetFolders (mapAssetFolders (setExternalIdForFolders assetFolders))),
      List.mem_cons_self _ _, rfl⟩

theorem importLanguagesAsync_hasCall (cfg : ImportConfig) (gen : String → String)
    (targetLangs : List TargetLanguage) (languages : List LanguageContract) :
    ∃ e ∈ (importLanguagesAsync cfg gen targetLangs languages).fst,
      isCallOfRank 1 e = true := by
  simp only [importLanguagesAsync]
  exact ⟨Ev.call .listLanguages, List.mem_cons_self _ _, rfl⟩

theorem importTaxonomiesAsync_hasCall (cfg : ImportConfig) (gen : String → String)
    (x : TaxonomyContract) (rest : List TaxonomyContract) :
    ∃ e ∈ (importTaxonomiesAsync cfg gen (x :: rest)).fst, isCallOfRank 2 e = true := by
  refine ⟨Ev.call (.addTaxonomy x.id), ?_, rfl⟩
  simp [importTaxonomiesAsync]

theorem importContentTypeSnippetsAsync_hasCall (cfg : ImportConfig) (gen : String → String)
    (x : SnippetContract) (rest : List SnippetContract) :
    ∃ e ∈ (importContentTypeSnippetsAsync cfg gen (x :: rest)).fst,
      isCallOfRank 3 e = true := by
  refine ⟨Ev.call (.addContentTypeSnippet x.codename), ?_, rfl⟩
  simp [importContentTypeSnippetsAsync]

theorem importContentTypesAsync_hasCall (cfg : ImportConfig) (gen : String → String)
    (x : ContentTypeContract) (rest : List ContentTypeContract) :
    ∃ e ∈ (importContentTypesAsync cfg gen (x :: rest)).fst, isCallOfRank 4 e = true := by
  refine ⟨Ev.call (.addContentType x.id), ?_, rfl⟩
  simp [importContentTypesAsync]

theorem importAssetsAsync_hasCall (cfg : ImportConfig) (gen : String → String)
    (binaryFiles : List BinaryFile) (currentItems : List ImportItemResult)
    (x : AssetContract) (rest : List AssetContract) {rs : List ImportItemResult}
    (h : (importAssetsAsync cfg gen binaryFiles currentItems (x :: rest)).snd
      = Except.ok rs) :
    ∃ e ∈ (importAssetsAsync cfg gen binaryFiles currentItems (x :: rest)).fst,
      isCallOfRank 5 e = true := by
  simp only [importAssetsAsync] at h ⊢
  cases hfind : binaryFiles.find? (fun m => m.asset.id == x.id) with
  | none =>
      simp only [hfind] at h
      exact Except.noConfusion h
  | some b =>
      simp only [hfind]
      refine ⟨Ev.call (.uploadBinaryFile x.fileName
        (if maxAllowedAssetSizeInBytes ≤ b.asset.size then [] else b.binaryData)), ?_, rfl⟩
      simp

theorem importContentItemAsync_hasCall (cfg : ImportConfig) (gen : String → String)
    (x : ContentItemContract) (rest : List ContentItemContract)
    {rs : List ImportItemResult}
    (h : (importContentItemAsync cfg gen (x :: rest)).snd = Except.ok rs) :
    ∃ e ∈ (importContentItemAsync cfg gen (x :: rest)).fst, isCallOfRank 6 e = true := by
  simp only [importContentItemAsync] at h ⊢
  cases htc : x.typeRef.codename with
  | none =>
      simp only [htc] at h
      exact Except.noConfusion h
  | some tc =>
      simp only [htc]
      refine ⟨Ev.call (.addContentItem x.codename tc), ?_, rfl⟩
      simp

theorem importLanguageVariantsAsync_hasCall (cfg : ImportConfig) (gen : String → String)
    (currentItems : List ImportItemResult) (x : LanguageVariantContract)
    (rest : List LanguageVariantContract)
    {p : List ImportItemResult × List LanguageVariantContract}
    (h : (importLanguageVariantsAsync cfg gen currentItems (x :: rest)).snd
      = Except.ok p) :
    ∃ e ∈ (importLanguageVariantsAsync cfg gen currentItems (x :: rest)).fst,
      isCallOfRank 7 e = true := by
  simp only [importLanguageVariantsAsync] at h ⊢
  cases hic : x.item.codename with
  | none =>
      simp only [hic] at h
      exact Except.noConfusion h
  | some ic =>
      simp only [hic] at h ⊢
      cases hlc : x.language.codename with
      | none =>
          simp only [hlc] at h
          exact Except.noConfusion h
      | some lc =>
          simp only [hlc]
          refine ⟨Ev.call (.upsertLanguageVariant ic lc
            (translateVariant currentItems x).elements), ?_, rfl⟩
          simp


theorem guard_true {α : Type} {b : Bool} {skip stage : List Ev × Except String α}
    {p : List Ev × Except String α}
    (h : (if b = true then skip else stage) = p) (hb : b = true) : skip = p := by
  rw [if_pos hb] at h
  exact h

theorem guard_false {α : Type} {b : Bool} {skip stage : List Ev × Except String α}
    {p : List Ev × Except String α}
    (h : (if b = true then skip else stage) = p) (hb : b = false) : stage = p := by
  rw [if_neg (by simp [hb])] at h
  exact h

theorem skip_pair_eq {α : Type} {z : α} {t : List Ev} {r : α}
    (h : (([], Except.ok z) : List Ev × Except String α) = (t, Except.ok r)) :
    t = [] ∧ r = z := by
  rw [Prod.mk.injEq] at h
  obtain ⟨h1, h2⟩ := h
  injection h2 with h2
  exact ⟨h1.symm, h2.symm⟩

/-- The stage-order decomposition of a successful `importAsync` run: the trace
splits into consecutive stage segments in the fixed total order, the result
list into the corresponding result segments; empty input collections give
empty segments and non-empty ones contribute at least one call. -/
def stageOrderSpec (cfg : ImportConfig) (src : ImportSource) (tr : List Ev)
    (res : List ImportItemResult) : Prop :=
  ∃ (t0 t1 t2 t3 t4 t5 t6 t7 t8 t9 : List Ev)
      (rF rL rT rA rI rV : List ImportItemResult),
      tr = t0 ++ t1 ++ t2 ++ t3 ++ t4 ++ t5 ++ t6 ++ t7 ++ t8 ++ t9 ∧
      res = rF ++ rL ++ rT ++ rA ++ rI ++ rV ∧
      ranksAt 0 t0 ∧ ranksAt 1 t1 ∧ ranksAt 2 t2 ∧ ranksAt 3 t3 ∧ ranksAt 4 t4 ∧
      ranksAt 5 t5 ∧ ranksAt 6 t6 ∧ ranksAt 7 t7 ∧ ranksAt 8 t8 ∧ ranksAt 9 t9 ∧
      kindsAt EntityKind.assetFolder rF ∧ kindsAt EntityKind.language rL ∧
      kindsAt EntityKind.taxonomy rT ∧ kindsAt EntityKind.asset rA ∧
      kindsAt EntityKind.contentItem rI ∧ kindsAt EntityKind.languageVariant rV ∧
      ((preprocessSource cfg src).assetFolders.isNil = true → t0 = [] ∧ rF = []) ∧
      ((preprocessSource cfg src).importData.languages.isEmpty = true →
        t1 = [] ∧ rL = []) ∧
      ((preprocessSource cfg src).importData.taxonomies.isEmpty = true →
        t2 = [] ∧ rT = []) ∧
      ((preprocessSource cfg src).importData.contentTypeSnippets.isEmpty = true →
        t3 = []) ∧
      ((preprocessSource cfg src).importData.contentTypes.isEmpty = true → t4 = []) ∧
      ((preprocessSource cfg src).importData.assets.isEmpty = true →
        t5 = [] ∧ rA = []) ∧
      ((preprocessSource cfg src).importData.contentItems.isEmpty = true →
        t6 = [] ∧ rI = []) ∧
      ((preprocessSource cfg src).importData.languageVariants.isEmpty = true →
        t7 = [] ∧ rV = []) ∧
      ((preprocessSource cfg src).assetFolders.isNil = false →
        ∃ e ∈ t0, isCallOfRank 0 e = true) ∧
      ((preprocessSource cfg src).importData.languages.isEmpty = false →
        ∃ e ∈ t1, isCallOfRank 1 e = true) ∧
      ((preprocessSource cfg src).importData.taxonomies.isEmpty = false →
        ∃ e ∈ t2, isCallOfRank 2 e = true) ∧
      ((preprocessSource cfg src).importData.contentTypeSnippets.isEmpty = false →
        ∃ e ∈ t3, isCallOfRank 3 e = true) ∧
      ((preprocessSource cfg src).importData.contentTypes.isEmpty = false →
        ∃ e ∈ t4, isCallOfRank 4 e = true) ∧
      ((preprocessSource cfg src).importData.assets.isEmpty = false →
        ∃ e ∈ t5, isCallOfRank 5 e = true) ∧
      ((preprocessSource cfg src).importData.contentItems.isEmpty = false →
        ∃ e ∈ t6, isCallOfRank 6 e = true) ∧
      ((preprocessSource cfg src).importData.languageVariants.isEmpty = false →
        ∃ e ∈ t7, isCallOfRank 7 e = true)

/-- C1: for every `ImportSource`, a successful `importAsync` run applies the
per-entity-kind stages in exactly the fixed total order — asset folders,
languages, taxonomies, content-type snippets, content types, assets, content
items, language variants, then the optional publish pass and the optional
workflow-step move: its event trace is a concatenation of consecutive segments
of those stages in that order, and its result list the concatenation of the
corresponding result segments.  Every stage whose (preprocessed) input
collection is empty is skipped rather than failed — its trace segment is empty
(no network call) and its result segment is empty (no result entries) — while
every stage whose input collection is non-empty still executes, contributing at
least one network call of its stage. -/
theorem importAsync_stage_order (cfg : ImportConfig) (gen : String → String)
    (tl : List TargetLanguage) (src : ImportSource) (tr : List Ev)
    (res : List ImportItemResult)
    (h : importAsync cfg gen tl src = (tr, Except.ok res)) :
    stageOrderSpec cfg src tr res := by
  unfold stageOrderSpec
  simp only [importAsync] at h
  obtain ⟨tF, rF, tL, rL, tT, rT, tS, rS, tC, rC, tA, rA, tI, rI, tV, rV, vs2, tP, tM,
    hF, hL, hT, hS, hC, hA, hI, hV, hP, hM, htr, hres⟩ :=
    importStages_ok_shape cfg gen tl (preprocessSource cfg src) tr res h
  refine ⟨tF, tL, tT, tS, tC, tA, tI, tV, tP, tM, rF, rL, rT, rA, rI, rV,
    htr, hres, ?_, ?_, ?_, ?_, ?_, ?_, ?_, ?_, ?_, ?_, ?_, ?_, ?_, ?_, ?_, ?_,
    ?_, ?_, ?_, ?_, ?_, ?_, ?_, ?_, ?_, ?_, ?_, ?_, ?_, ?_, ?_, ?_⟩
  · cases hb : (preprocessSource cfg src).assetFolders.isNil with
    | true =>
        obtain ⟨h1, _⟩ := skip_pair_eq (guard_true hF hb)
        rw [h1]
        exact ranksAt_nil
    | false =>
        have := importAssetFoldersAsync_rank cfg gen (preprocessSource cfg src).assetFolders
        rw [guard_false hF hb] at this
        exact this
  · cases hb : (preprocessSource cfg src).importData.languages.isEmpty with
    | true =>
        obtain ⟨h1, _⟩ := skip_pair_eq (guard_true hL hb)
        rw [h1]
        exact ranksAt_nil
    | false =>
        have := importLanguagesAsync_rank cfg gen tl
          (preprocessSource cfg src).importData.languages
        rw [guard_false hL hb] at this
        exact this
  · cases hb : (preprocessSource cfg src).importData.taxonomies.isEmpty with
    | true =>
        obtain ⟨h1, _⟩ := skip_pair_eq (guard_true hT hb)
        rw [h1]
        exact ranksAt_nil
    | false =>
        have := importTaxonomiesAsync_rank cfg gen
          (preprocessSource cfg src).importData.taxonomies
        have heq := guard_false hT hb
        rw [Prod.mk.injEq] at heq
        rw [heq.1] at this
        exact this
  · cases hb : (preprocessSource cfg src).importData.contentTypeSnippets.isEmpty with
    | true =>
        obtain ⟨h1, _⟩ := skip_pair_eq (guard_true hS hb)
        rw [h1]
        exact ranksAt_nil
    | false =>
        have := importContentTypeSnippetsAsync_rank cfg gen
          (preprocessSource cfg src).importData.contentTypeSnippets
        have heq := guard_false hS hb
        rw [Prod.mk.injEq] at heq
        rw [heq.1] at this
        exact this
  · cases hb : (preprocessSource cfg src).importData.contentTypes.isEmpty with
    | true =>
        obtain ⟨h1, _⟩ := skip_pair_eq (guard_true hC hb)
        rw [h1]
        exact ranksAt_nil
    | false =>
        have := importContentTypesAsync_rank cfg gen
          (preprocessSource cfg src).importData.contentTypes
        have heq := guard_false hC hb
        rw [Prod.mk.injEq] at heq
        rw [heq.1] at this
        exact this
  · cases hb : (preprocessSource cfg src).importData.assets.isEmpty with
    | true =>
        obtain ⟨h1, _⟩ := skip_pair_eq (guard_true hA hb)
        rw [h1]
        exact ranksAt_nil
    | false =>
        have := importAssetsAsync_rank cfg gen (preprocessSource cfg src).binaryFiles
          (rF ++ rL ++ rT) (preprocessSource cfg src).importData.assets
        rw [guard_false hA hb] at this
        exact this
  · cases hb : (preprocessSource cfg src).importData.contentItems.isEmpty with
    | true =>
        obtain ⟨h1, _⟩ := skip_pair_eq (guard_true hI hb)
        rw [h1]
        exact ranksAt_nil
    | false =>
        have := importContentItemAsync_rank cfg gen
          (preprocessSource cfg src).importData.contentItems
        rw [guard_false hI hb] at this
        exact this
  · have := importLanguageVariantsAsync_rank cfg gen (rF ++ rL ++ rT ++ rA ++ rI)
      (preprocessSource cfg src).importData.languageVariants
    rw [hV] at this
    exact this
  · cases hb : cfg.enablePublish with
    | true =>
        have := publishLanguageVariantsAsync_rank cfg vs2
          (preprocessSource cfg src).importData.workflowSteps
        rw [guard_true hP hb] at this
        exact this
    | false =>
        obtain ⟨h1, _⟩ := skip_pair_eq (guard_false hP hb)
        rw [h1]
        exact ranksAt_nil
  · cases hw : cfg.workflowIdForImportedItems with
    | none =>
        rw [hw] at hM
        obtain ⟨h1, _⟩ := skip_pair_eq hM
        rw [h1]
        exact ranksAt_nil
    | some wid =>
        simp only [hw] at hM
        have := moveLanguageVariants_rank cfg wid vs2
        rw [hM] at this
        exact this
  · cases hb : (preprocessSource cfg src).assetFolders.isNil with
    | true =>
        obtain ⟨_, h2⟩ := skip_pair_eq (guard_true hF hb)
        rw [h2]
        exact kindsAt_nil
    | false => exact importAssetFoldersAsync_kinds cfg gen _ (guard_false hF hb)
  · cases hb : (preprocessSource cfg src).importData.languages.isEmpty with
    | true =>
        obtain ⟨_, h2⟩ := skip_pair_eq (guard_true hL hb)
        rw [h2]
        exact kindsAt_nil
    | false => exact (importLanguagesAsync_kinds cfg gen tl _ (guard_false hL hb)).1
  · cases hb : (preprocessSource cfg src).importData.taxonomies.isEmpty with
    | true =>
        obtain ⟨_, h2⟩ := skip_pair_eq (guard_true hT hb)
        rw [h2]
        exact kindsAt_nil
    | false =>
        have hk := (importTaxonomiesAsync_kinds cfg gen
          (preprocessSource cfg src).importData.taxonomies).1
        have heq := guard_false hT hb
        rw [Prod.mk.injEq] at heq
        obtain ⟨h1, h2⟩ := heq
        injection h2 with h2
        rw [h2] at hk
        exact hk
  · cases hb : (preprocessSource cfg src).importData.assets.isEmpty with
    | true =>
        obtain ⟨_, h2⟩ := skip_pair_eq (guard_true hA hb)
        rw [h2]
        exact kindsAt_nil
    | false =>
        have heq := guard_false hA hb
        rw [Prod.mk.injEq] at heq
        exact (importAssetsAsync_kinds cfg gen _ _ _ heq.2).1
  · cases hb : (preprocessSource cfg src).importData.contentItems.isEmpty with
    | true =>
        obtain ⟨_, h2⟩ := skip_pair_eq (guard_true hI hb)
        rw [h2]
        exact kindsAt_nil
    | false =>
        have heq := guard_false hI hb
        rw [Prod.mk.injEq] at heq
        exact (importContentItemAsync_kinds cfg gen _ heq.2).1
  · have heq := hV
    rw [Prod.mk.injEq] at heq
    exact (importLanguageVariantsAsync_kinds cfg gen _ _ heq.2).1
  · intro hb
    exact skip_pair_eq (guard_true hF hb)
  · intro hb
    exact skip_pair_eq (guard_true hL hb)
  · intro hb
    exact skip_pair_eq (guard_true hT hb)
  · intro hb
    exact (skip_pair_eq (guard_true hS hb)).1
  · intro hb
    exact (skip_pair_eq (guard_true hC hb)).1
  · intro hb
    exact skip_pair_eq (guard_true hA hb)
  · intro hb
    exact skip_pair_eq (guard_true hI hb)
  · intro hb
    have hnil : (preprocessSource cfg src).importData.languageVariants = [] :=
      List.isEmpty_iff.mp hb
    rw [hnil] at hV
    simp only [importLanguageVariantsAsync] at hV
    rw [Prod.mk.injEq] at hV
    obtain ⟨h1, h2⟩ := hV
    injection h2 with h2
    rw [Prod.mk.injEq] at h2
    exact ⟨h1.symm, h2.1.symm⟩
  · intro hb
    have := importAssetFoldersAsync_hasCall cfg gen (preprocessSource cfg src).assetFolders
    rw [guard_false hF hb] at this
    exact this
  · intro hb
    have := importLanguagesAsync_hasCall cfg gen tl
      (preprocessSource cfg src).importData.languages
    rw [guard_false hL hb] at this
    exact this
  · intro hb
    rcases hxs : (preprocessSource cfg src).importData.taxonomies with _ | ⟨x, rest⟩
    · rw [hxs] at hb
      simp [List.isEmpty] at hb
    · have := importTaxonomiesAsync_hasCall cfg gen x rest
      rw [← hxs] at this
      have heq := guard_false hT hb
      rw [Prod.mk.injEq] at heq
      rw [heq.1] at this
      exact this
  · intro hb
    rcases hxs : (preprocessSource cfg src).importData.contentTypeSnippets
      with _ | ⟨x, rest⟩
    · rw [hxs] at hb
      simp [List.isEmpty] at hb
    · have := importContentTypeSnippetsAsync_hasCall cfg gen x rest
      rw [← hxs] at this
      have heq := guard_false hS hb
      rw [Prod.mk.injEq] at heq
      rw [heq.1] at this
      exact this
  · intro hb
    rcases hxs : (preprocessSource cfg src).importData.contentTypes with _ | ⟨x, rest⟩
    · rw [hxs] at hb
      simp [List.isEmpty] at hb
    · have := importContentTypesAsync_hasCall cfg gen x rest
      rw [← hxs] at this
      have heq := guard_false hC hb
      rw [Prod.mk.injEq] at heq
      rw [heq.1] at this
      exact this
  · intro hb
    rcases hxs : (preprocessSource cfg src).importData.assets with _ | ⟨x, rest⟩
    · rw [hxs] at hb
      simp [List.isEmpty] at hb
    · have heq := guard_false hA hb
      rw [hxs] at heq
      rw [Prod.mk.injEq] at heq
      have := importAssetsAsync_hasCall cfg gen (preprocessSource cfg src).binaryFiles
        (rF ++ rL ++ rT) x rest heq.2
      rw [heq.1] at this
      exact this
  · intro hb
    rcases hxs : (preprocessSource cfg src).importData.contentItems with _ | ⟨x, rest⟩
    · rw [hxs] at hb
      simp [List.isEmpty] at hb
    · have heq := guard_false hI hb
      rw [hxs] at heq
      rw [Prod.mk.injEq] at heq
      have := importContentItemAsync_hasCall cfg gen x rest heq.2
      rw [heq.1] at this
      exact this
  · intro hb
    rcases hxs : (preprocessSource cfg src).importData.languageVariants with _ | ⟨x, rest⟩
    · rw [hxs] at hb
      simp [List.isEmpty] at hb
    · have heq := hV
      rw [hxs] at heq
      rw [Prod.mk.injEq] at heq
      have := importLanguageVariantsAsync_hasCall cfg gen (rF ++ rL ++ rT ++ rA ++ rI)
        x rest heq.2
      rw [heq.1] at this
      exact this


/-- Base configuration for concrete runs: no publish pass, no workflow move,
no fix-mode, no process predicates, no callbacks. -/
def cfgBase : ImportConfig :=
  { enablePublish := false, workflowIdForImportedItems := none, fixLanguages := false,
    process := none, onImport := false, onUnsupportedBinaryFile := false }

/-- An import-data value with all collections empty. -/
def emptyImportData : ImportData := ⟨[], [], [], [], [], [], [], []⟩

/-- A source holding a single taxonomy and nothing else. -/
def srcTaxOnly : ImportSource :=
  ⟨{ emptyImportData with taxonomies := [⟨"t1", "tax"⟩] }, .nil, []⟩

/-- A fresh-id oracle for concrete runs. -/
def genW : String → String := fun s => String.append "new-" s

/-- Witness for C1: a concrete run with one taxonomy evaluates as expected and
satisfies the stage-order decomposition. -/
theorem importAsync_stage_order_witness :
    importAsync cfgBase genW [] srcTaxOnly =
      ([Ev.call (.addTaxonomy "t1")],
        Except.ok [⟨EntityKind.taxonomy, "tax", "t1", "new-t1", "t1"⟩]) ∧
    stageOrderSpec cfgBase srcTaxOnly [Ev.call (.addTaxonomy "t1")]
      [⟨EntityKind.taxonomy, "tax", "t1", "new-t1", "t1"⟩] :=
  ⟨rfl, importAsync_stage_order cfgBase genW [] srcTaxOnly
    [Ev.call (.addTaxonomy "t1")] [⟨EntityKind.taxonomy, "tax", "t1", "new-t1", "t1"⟩]
    rfl⟩


/-- The composition of the result list a successful `importAsync` run returns:
consecutive segments of asset-folder, language, taxonomy, asset, content-item
and language-variant entries in stage order, one entry per imported taxonomy,
asset, content item and language variant, language entries drawn from the
source languages, and no content-type or content-type-snippet entries. -/
def returnedResultsSpec (cfg : ImportConfig) (src : ImportSource)
    (res : List ImportItemResult) : Prop :=
  ∃ (rF rL rT rA rI rV : List ImportItemResult),
    res = rF ++ rL ++ rT ++ rA ++ rI ++ rV ∧
    kindsAt EntityKind.assetFolder rF ∧ kindsAt EntityKind.language rL ∧
    kindsAt EntityKind.taxonomy rT ∧ kindsAt EntityKind.asset rA ∧
    kindsAt EntityKind.contentItem rI ∧ kindsAt EntityKind.languageVariant rV ∧
    rT.length = (preprocessSource cfg src).importData.taxonomies.length ∧
    rA.length = (preprocessSource cfg src).importData.assets.length ∧
    rI.length = (preprocessSource cfg src).importData.contentItems.length ∧
    rV.length = (preprocessSource cfg src).importData.languageVariants.length ∧
    (∀ r ∈ rL, r.originalId ∈
      (preprocessSource cfg src).importData.languages.map (fun l => l.id)) ∧
    (∀ r ∈ res,
      r.kind ≠ EntityKind.contentType ∧ r.kind ≠ EntityKind.contentTypeSnippet)

/-- C9: the list returned by `importAsync` contains one entry per
successfully imported asset folder, language, taxonomy, asset, content item and language
variant, in stage order; content types and content-type snippets are imported
and recorded internally but never appended to the returned list (no entry of
those kinds occurs). -/
theorem importAsync_returned_results (cfg : ImportConfig) (gen : String → String)
    (tl : List TargetLanguage) (src : ImportSource) (tr : List Ev)
    (res : List ImportItemResult)
    (h : importAsync cfg gen tl src = (tr, Except.ok res)) :
    returnedResultsSpec cfg src res := by
  unfold returnedResultsSpec
  simp only [importAsync] at h
  obtain ⟨tF, rF, tL, rL, tT, rT, tS, rS, tC, rC, tA, rA, tI, rI, tV, rV, vs2, tP, tM,
    hF, hL, hT, hS, hC, hA, hI, hV, hP, hM, htr, hres⟩ :=
    importStages_ok_shape cfg gen tl (preprocessSource cfg src) tr res h
  have hkF : kindsAt EntityKind.assetFolder rF := by
    cases hb : (preprocessSource cfg src).assetFolders.isNil with
    | true =>
        obtain ⟨_, h2⟩ := skip_pair_eq (guard_true hF hb)
        rw [h2]
        exact kindsAt_nil
    | false => exact importAssetFoldersAsync_kinds cfg gen _ (guard_false hF hb)
  have hkL : kindsAt EntityKind.language rL ∧
      ∀ r ∈ rL, r.originalId ∈
        (preprocessSource cfg src).importData.languages.map (fun l => l.id) := by
    cases hb : (preprocessSource cfg src).importData.languages.isEmpty with
    | true =>
        obtain ⟨_, h2⟩ := skip_pair_eq (guard_true hL hb)
        rw [h2]
        exact ⟨kindsAt_nil, by intro r hr; cases hr⟩
    | false => exact importLanguagesAsync_kinds cfg gen tl _ (guard_false hL hb)
  have hkT : kindsAt EntityKind.taxonomy rT ∧
      rT.length = (preprocessSource cfg src).importData.taxonomies.length := by
    cases hb : (preprocessSource cfg src).importData.taxonomies.isEmpty with
    | true =>
        obtain ⟨_, h2⟩ := skip_pair_eq (guard_true hT hb)
        rw [h2, List.isEmpty_iff.mp hb]
        exact ⟨kindsAt_nil, rfl⟩
    | false =>
        have hk := importTaxonomiesAsync_kinds cfg gen
          (preprocessSource cfg src).importData.taxonomies
        have heq := guard_false hT hb
        rw [Prod.mk.injEq] at heq
        obtain ⟨h1, h2⟩ := heq
        injection h2 with h2
        rw [h2] at hk
        exact hk
  have hkA : kindsAt EntityKind.asset rA ∧
      rA.length = (preprocessSource cfg src).importData.assets.length := by
    cases hb : (preprocessSource cfg src).importData.assets.isEmpty with
    | true =>
        obtain ⟨_, h2⟩ := skip_pair_eq (guard_true hA hb)
        rw [h2, List.isEmpty_iff.mp hb]
        exact ⟨kindsAt_nil, rfl⟩
    | false =>
        have heq := guard_false hA hb
        rw [Prod.mk.injEq] at heq
        exact importAssetsAsync_kinds cfg gen _ _ _ heq.2
  have hkI : kindsAt EntityKind.contentItem rI ∧
      rI.length = (preprocessSource cfg src).importData.contentItems.length := by
    cases hb : (preprocessSource cfg src).importData.contentItems.isEmpty with
    | true =>
        obtain ⟨_, h2⟩ := skip_pair_eq (guard_true hI hb)
        rw [h2, List.isEmpty_iff.mp hb]
        exact ⟨kindsAt_nil, rfl⟩
    | false =>
        have heq := guard_false hI hb
        rw [Prod.mk.injEq] at heq
        exact importContentItemAsync_kinds cfg gen _ heq.2
  have hkV : kindsAt EntityKind.languageVariant rV ∧
      rV.length = (preprocessSource cfg src).importData.languageVariants.length := by
    have heq := hV
    rw [Prod.mk.injEq] at heq
    exact importLanguageVariantsAsync_kinds cfg gen _ _ heq.2
  refine ⟨rF, rL, rT, rA, rI, rV, hres, hkF, hkL.1, hkT.1, hkA.1, hkI.1, hkV.1,
    hkT.2, hkA.2, hkI.2, hkV.2, hkL.2, ?_⟩
  intro r hr
  rw [hres] at hr
  simp only [List.mem_append] at hr
  rcases hr with ((((hm | hm) | hm) | hm) | hm) | hm
  · rw [hkF r hm]
    exact ⟨by decide, by decide⟩
  · rw [hkL.1 r hm]
    exact ⟨by decide, by decide⟩
  · rw [hkT.1 r hm]
    exact ⟨by decide, by decide⟩
  · rw [hkA.1 r hm]
    exact ⟨by decide, by decide⟩
  · rw [hkI.1 r hm]
    exact ⟨by decide, by decide⟩
  · rw [hkV.1 r hm]
    exact ⟨by decide, by decide⟩

/-- Witness for C9: the concrete one-taxonomy run satisfies the returned
results composition. -/
theorem importAsync_returned_results_witness :
    importAsync cfgBase genW [] srcTaxOnly =
      ([Ev.call (.addTaxonomy "t1")],
        Except.ok [⟨EntityKind.taxonomy, "tax", "t1", "new-t1", "t1"⟩]) ∧
    returnedResultsSpec cfgBase srcTaxOnly
      [⟨EntityKind.taxonomy, "tax", "t1", "new-t1", "t1"⟩] :=
  ⟨rfl, importAsync_returned_results cfgBase genW [] srcTaxOnly
    [Ev.call (.addTaxonomy "t1")] [⟨EntityKind.taxonomy, "tax", "t1", "new-t1", "t1"⟩]
    rfl⟩


/-- A process configuration filtering out the language with id `B`. -/
def procFilterLangB : ProcessConfig :=
  { asset := none, language := some (fun l => l.id != "B"), assetFolder := none,
    contentType := none, contentItem := none, contentTypeSnippet := none,
    languageVariant := none, taxonomy := none }

/-- A configuration with the language filter of `procFilterLangB`. -/
def cfgFilterLangB : ImportConfig := { cfgBase with process := some procFilterLangB }

/-- A source with two languages where `A` falls back to `B`. -/
def srcTwoLangs : ImportSource :=
  ⟨{ emptyImportData with languages :=
      [{ id := "A", name := "langA", codename := "a", externalId := none,
         isActive := true, isDefault := false,
         fallbackLanguage := { id := "B", codename := none } },
       { id := "B", name := "langB", codename := "b", externalId := none,
         isActive := true, isDefault := false,
         fallbackLanguage := { id := "A", codename := none } }] }, .nil, []⟩

/-- Counterexample for C3: `importAsync` runs `translateIds` before
`removeSkippedItemsFromImport`, so for a configuration that filters out
language `B` while language `A` holds an id reference to `B`, the actual
preprocessing differs from filtering-then-normalizing: the code still resolves
the fallback codename of `A` to `b`, while the claimed order leaves it
unresolved. -/
theorem preprocess_order_counterexample :
    preprocessSource cfgFilterLangB srcTwoLangs ≠
      preprocessSpecOrder cfgFilterLangB srcTwoLangs := by
  decide

/-- C3 (amended): during `importAsync` the reference-normalization pass
(`translateIds`) runs first and the user-predicate filtering
(`removeSkippedItemsFromImport`) second — preprocessing equals filtering
composed after normalization — and the two orders are not interchangeable. -/
theorem preprocess_normalize_then_filter :
    (∀ (cfg : ImportConfig) (gen : String → String) (tl : List TargetLanguage)
       (src : ImportSource),
       importAsync cfg gen tl src =
         importStagesAsync cfg gen tl
           (removeSkippedItemsFromImport cfg (translateIds src))) ∧
    (∃ (cfg : ImportConfig) (src : ImportSource),
       removeSkippedItemsFromImport cfg (translateIds src) ≠
         translateIds (removeSkippedItemsFromImport cfg src)) :=
  ⟨fun cfg gen tl src => rfl, ⟨cfgFilterLangB, srcTwoLangs, by decide⟩⟩

/-- A variant of item `a` in language `L`. -/
def variantAL : LanguageVariantContract :=
  ⟨⟨"a", some "ia"⟩, ⟨"L", some "ll"⟩, .jnull, ⟨"w", none⟩⟩

/-- A variant of item `b` in the same language `L`. -/
def variantBL : LanguageVariantContract :=
  ⟨⟨"b", some "ib"⟩, ⟨"L", some "ll"⟩, .jnull, ⟨"w", none⟩⟩

/-- A process configuration whose language-variant predicate rejects exactly
the variant of item `a`. -/
def procRejectItemA : ProcessConfig :=
  { asset := none, language := none, assetFolder := none, contentType := none,
    contentItem := none, contentTypeSnippet := none,
    languageVariant := some (fun v => v.item.id != "a"), taxonomy := none }

/-- A configuration with the variant filter of `procRejectItemA`. -/
def cfgRejectItemA : ImportConfig := { cfgBase with process := some procRejectItemA }

/-- A source holding the two variants of language `L`. -/
def srcTwoVariants : ImportSource :=
  ⟨{ emptyImportData with languageVariants := [variantAL, variantBL] }, .nil, []⟩

/-- C4 (code bug): filtering with a language-variant predicate that rejects
only the variant of item `a` also removes the variant of item `b` — the
removal filter keeps a variant only when both its item id and its language id
differ from the rejected variant, so the kept-predicate-true variant
`variantBL`, sharing language `L`, is removed as well and the filtered
collection is empty instead of `[variantBL]`. -/
theorem removeSkipped_languageVariant_bug :
    (removeSkippedItemsFromImport cfgRejectItemA srcTwoVariants).importData.languageVariants
      = [] ∧
    (removeSkippedItemsFromImport cfgRejectItemA srcTwoVariants).importData.languageVariants
      ≠ [variantBL] :=
  ⟨by decide, by decide⟩


/-- The upsert calls of a trace, in order. -/
def upsertCalls : List Ev → List NetworkCall
  | [] => []
  | Ev.call (NetworkCall.upsertLanguageVariant ic lc el) :: rest =>
      NetworkCall.upsertLanguageVariant ic lc el :: upsertCalls rest
  | _ :: rest => upsertCalls rest

theorem upsertCalls_append (a b : List Ev) :
    upsertCalls (a ++ b) = upsertCalls a ++ upsertCalls b := by
  induction a with
  | nil => rfl
  | cons e rest ih =>
      cases e with
      | call c =>
          cases c <;> simp [upsertCalls, ih]
      | importCb t s => simp [upsertCalls, ih]
      | unsupportedBinaryFile s => simp [upsertCalls, ih]

theorem upsertCalls_ite_cb {c : Prop} [Decidable c] {t : ActionType} {s : String} :
    upsertCalls (if c then [Ev.importCb t s] else []) = [] := by
  by_cases hc : c
  · rw [if_pos hc]
    rfl
  · rw [if_neg hc]
    rfl

/-- After the id translation, no original id recorded in the import results
occurs anywhere in the payload, provided no recorded new id collides with a
recorded original id. -/
theorem replaceId_no_original (items : List ImportItemResult)
    (hsafe : ∀ e ∈ items, ∀ e2 ∈ items, e.importId ≠ e2.originalId)
    (e : ImportItemResult) (he : e ∈ items) (v : JsonVal) :
    occursIn e.originalId (replaceIdReferencesWithNewId items v) = false := by
  induction v with
  | jstr s =>
      simp only [replaceIdReferencesWithNewId, occursIn, translateId]
      cases hfind : items.find? (fun m => m.originalId == s) with
      | none =>
          have hne := List.find?_eq_none.mp hfind e he
          simp only [beq_iff_eq] at hne
          exact beq_eq_false_iff_ne.mpr (fun hcontra => hne hcontra.symm)
      | some m =>
          have hmem := List.mem_of_find?_eq_some hfind
          exact beq_eq_false_iff_ne.mpr (hsafe m hmem e he)
  | jnum n => rfl
  | jbool b => rfl
  | jnull => rfl
  | jarrNil => rfl
  | jobjNil => rfl
  | jarrCons hd tlv ih1 ih2 =>
      simp [replaceIdReferencesWithNewId, occursIn, ih1, ih2]
  | jobjCons k vv r ih1 ih2 =>
      simp [replaceIdReferencesWithNewId, occursIn, ih1, ih2]

/-- C2: for every language variant whose item and language codenames are set,
the payload sent by the upsert call of `importLanguageVariantsAsync` is the
variant element payload with every reference to an original id of an
entity imported earlier in the run (recorded in the accumulated import results)
replaced, recursively through nested objects and arrays, by that
entity imported id; in particular no recorded original id occurs anywhere in the
submitted payload. -/
theorem importLanguageVariants_reference_resolution (cfg : ImportConfig)
    (gen : String → String) (currentItems : List ImportItemResult)
    (variants : List LanguageVariantContract)
    (hcn : ∀ v ∈ variants, v.item.codename ≠ none ∧ v.language.codename ≠ none)
    (hsafe : ∀ e ∈ currentItems, ∀ e2 ∈ currentItems,
      e.importId ≠ e2.originalId) :
    ∃ tr p, importLanguageVariantsAsync cfg gen currentItems variants
        = (tr, Except.ok p) ∧
      upsertCalls tr = variants.map (fun v =>
        NetworkCall.upsertLanguageVariant (v.item.codename.getD "")
          (v.language.codename.getD "")
          (replaceIdReferencesWithNewId currentItems v.elements)) ∧
      ∀ v ∈ variants, ∀ e ∈ currentItems,
        occursIn e.originalId
          (replaceIdReferencesWithNewId currentItems v.elements) = false := by
  induction variants with
  | nil =>
      exact ⟨[], ([], []), rfl, rfl, by intro v hv; cases hv⟩
  | cons x rest ih =>
      obtain ⟨hx, hrest⟩ := List.forall_mem_cons.mp hcn
      obtain ⟨tr2, p2, hstage, hcalls, hocc⟩ := ih hrest
      cases hic : x.item.codename with
      | none => exact absurd hic hx.1
      | some ic =>
        cases hlc : x.language.codename with
        | none => exact absurd hlc hx.2
        | some lc =>
          refine ⟨Ev.call (.upsertLanguageVariant ic lc
              (translateVariant currentItems x).elements) ::
              ((if cfg.onImport then
                [Ev.importCb .languageVariant
                  (String.append ic (String.append " " lc))] else []) ++ tr2),
            ({ kind := .languageVariant,
               imported := String.append ic (String.append " " lc),
               original := (translateVariant currentItems x).item.id,
               importId := (translateVariant currentItems x).item.id,
               originalId := (translateVariant currentItems x).item.id } :: p2.fst,
             translateVariant currentItems x :: p2.snd), ?_, ?_, ?_⟩
          · simp only [importLanguageVariantsAsync, hic, hlc, hstage]
            simp [Except.map]
          · simp only [upsertCalls, upsertCalls_append, hic, hlc]
            rw [upsertCalls_ite_cb]
            simp only [List.nil_append, hcalls, List.map_cons, hic, hlc]
            rfl
          · intro v hv e he
            rcases List.mem_cons.mp hv with rfl | hm
            · exact replaceId_no_original currentItems hsafe e he v.elements
            · exact hocc v hm e he


/-- Accumulated import results of a content item `X` and an asset `Y`. -/
def ledgerXY : List ImportItemResult :=
  [⟨EntityKind.contentItem, "itemX", "X", "newX", "X"⟩,
   ⟨EntityKind.asset, "assetY", "Y", "newY", "Y"⟩]

/-- A language variant whose element payload references `X` and `Y` inside a
list-valued element and a nested object. -/
def variantNested : LanguageVariantContract :=
  ⟨⟨"X", some "icx"⟩, ⟨"L", some "lc"⟩,
   .jobjCons "modular_content"
     (.jarrCons (.jstr "X") (.jarrCons (.jstr "Y") .jarrNil))
     (.jobjCons "asset" (.jobjCons "id" (.jstr "Y") .jobjNil) .jobjNil),
   ⟨"w", none⟩⟩

/-- Witness for C2: a concrete variant referencing an imported content item
and an imported asset inside nested list and object structures satisfies the
reference-resolution property. -/
theorem importLanguageVariants_reference_resolution_witness :
    (∀ v ∈ [variantNested], v.item.codename ≠ none ∧ v.language.codename ≠ none) ∧
    (∀ e ∈ ledgerXY, ∀ e2 ∈ ledgerXY, e.importId ≠ e2.originalId) ∧
    (∃ tr p, importLanguageVariantsAsync cfgBase genW ledgerXY [variantNested]
        = (tr, Except.ok p) ∧
      upsertCalls tr = [variantNested].map (fun v =>
        NetworkCall.upsertLanguageVariant (v.item.codename.getD "")
          (v.language.codename.getD "")
          (replaceIdReferencesWithNewId ledgerXY v.elements)) ∧
      ∀ v ∈ [variantNested], ∀ e ∈ ledgerXY,
        occursIn e.originalId
          (replaceIdReferencesWithNewId ledgerXY v.elements) = false) :=
  ⟨by decide, by decide,
   importLanguageVariants_reference_resolution cfgBase genW ledgerXY [variantNested]
     (by decide) (by decide)⟩


/-- All folder ids of a forest, in pre-order. -/
def forestIds : Forest → List String
  | .nil => []
  | .cons i _ _ ch sib => i :: (forestIds ch ++ forestIds sib)

/-- Whether some folder of the response tree has an external id matching no
original folder of the flattened list. -/
def respHasUnmatched (flat : List FlatFolder) : RespForest → Bool
  | .nil => false
  | .cons _ e _ ch sib =>
      (flat.find? (fun m => m.externalId == e)).isNone ||
        respHasUnmatched flat ch || respHasUnmatched flat sib

theorem flatten_setExt_externalId (F : Forest) :
    ∀ o ∈ flattenAssetFolderContracts (setExternalIdForFolders F),
      o.externalId = some o.id := by
  induction F with
  | nil =>
      intro o ho
      cases ho
  | cons i n e ch sib ihc ihs =>
      intro o ho
      simp only [setExternalIdForFolders, flattenAssetFolderContracts,
        List.mem_cons, List.mem_append] at ho
      rcases ho with rfl | hm | hm
      · rfl
      · exact ihc o hm
      · exact ihs o hm

theorem flatten_setExt_ids (F : Forest) :
    (flattenAssetFolderContracts (setExternalIdForFolders F)).map
      (fun o => o.id) = forestIds F := by
  induction F with
  | nil => rfl
  | cons i n e ch sib ihc ihs =>
      simp only [setExternalIdForFolders, flattenAssetFolderContracts, forestIds,
        List.map_cons, List.map_append, ihc, ihs]

theorem find_by_externalId (flat : List FlatFolder)
    (h1 : ∀ o ∈ flat, o.externalId = some o.id)
    (h2 : (flat.map (fun o => o.id)).Nodup)
    (o : FlatFolder) (ho : o ∈ flat) :
    flat.find? (fun m => m.externalId == some o.id) = some o := by
  induction flat with
  | nil => cases ho
  | cons x rest ih =>
      rw [List.map_cons, List.nodup_cons] at h2
      rcases List.mem_cons.mp ho with rfl | hm
      · rw [List.find?_cons_of_pos]
        rw [h1 o (List.mem_cons_self o rest)]
        simp
      · have hne : x.id ≠ o.id := by
          intro hcontra
          exact h2.1 (hcontra ▸ List.mem_map_of_mem (fun m => m.id) hm)
        rw [List.find?_cons_of_neg, ih (fun m hmem => h1 m (List.mem_cons_of_mem x hmem))
          h2.2 hm]
        rw [h1 x (List.mem_cons_self x rest)]
        simp [hne]

theorem flatten_mirror (gen : String → String) (flat : List FlatFolder)
    (h1 : ∀ o ∈ flat, o.externalId = some o.id)
    (h2 : (flat.map (fun o => o.id)).Nodup) :
    ∀ G : Forest,
      (∀ o ∈ flattenAssetFolderContracts (setExternalIdForFolders G), o ∈ flat) →
      flattenAssetFolders flat
          (serverCreateFolders gen (mapAssetFolders (setExternalIdForFolders G)))
        = Except.ok ((flattenAssetFolderContracts (setExternalIdForFolders G)).map
            (fun o => ⟨EntityKind.assetFolder, o.name, o.id, gen o.id, o.id⟩)) := by
  intro G
  induction G with
  | nil =>
      intro _
      rfl
  | cons i n e ch sib ihc ihs =>
      intro hsub
      have hhead : (⟨i, n, some i⟩ : FlatFolder) ∈ flat := by
        refine hsub _ ?_
        simp [setExternalIdForFolders, flattenAssetFolderContracts]
      have hch := ihc (fun o ho => hsub o (by
        simp only [setExternalIdForFolders, flattenAssetFolderContracts,
          List.mem_cons, List.mem_append]
        right
        left
        exact ho))
      have hsib := ihs (fun o ho => hsub o (by
        simp only [setExternalIdForFolders, flattenAssetFolderContracts,
          List.mem_cons, List.mem_append]
        right
        right
        exact ho))
      simp only [setExternalIdForFolders, mapAssetFolders, serverCreateFolders,
        flattenAssetFolders, Option.getD_some]
      have hfind := find_by_externalId flat h1 h2 ⟨i, n, some i⟩ hhead
      rw [hfind, hch, hsib]
      simp [flattenAssetFolderContracts, List.map_append]

theorem respHasUnmatched_error (flat : List FlatFolder) (resp : RespForest)
    (h : respHasUnmatched flat resp = true) :
    ∃ msg, flattenAssetFolders flat resp = Except.error msg := by
  induction resp with
  | nil => simp [respHasUnmatched] at h
  | cons i e n ch sib ihc ihs =>
      simp only [respHasUnmatched, Bool.or_eq_true] at h
      cases hfind : flat.find? (fun m => m.externalId == e) with
      | none =>
          refine ⟨"Could not find original folder", ?_⟩
          simp [flattenAssetFolders, hfind]
      | some o =>
          rcases h with (h | h) | h
          · rw [hfind] at h
            simp at h
          · obtain ⟨msg, hmsg⟩ := ihc h
            refine ⟨msg, ?_⟩
            simp [flattenAssetFolders, hfind, hmsg]
          · obtain ⟨msg, hmsg⟩ := ihs h
            cases hch : flattenAssetFolders flat ch with
            | error m2 =>
                refine ⟨m2, ?_⟩
                simp [flattenAssetFolders, hfind, hch]
            | ok chE =>
                refine ⟨msg, ?_⟩
                simp [flattenAssetFolders, hfind, hch, hmsg]

/-- C6: for every asset-folder tree with pairwise distinct folder ids,
the import first sets every folder external id (recursively) to a copy of its
original id; flattening the original tree and the mirrored response tree and
matching by external id yields exactly one result entry per original folder
node, in pre-order, each pairing the folder original id with the newly
assigned import id — no duplicates and no missing matches; and any response
tree containing a folder whose external id matches no original folder makes
`flattenAssetFolders` fail with a fatal error. -/
theorem assetFolders_roundtrip (gen : String → String) (F : Forest)
    (hnd : (forestIds F).Nodup) :
    (∀ o ∈ flattenAssetFolderContracts (setExternalIdForFolders F),
      o.externalId = some o.id) ∧
    flattenAssetFolders (flattenAssetFolderContracts (setExternalIdForFolders F))
        (serverCreateFolders gen (mapAssetFolders (setExternalIdForFolders F)))
      = Except.ok ((flattenAssetFolderContracts (setExternalIdForFolders F)).map
          (fun o => ⟨EntityKind.assetFolder, o.name, o.id, gen o.id, o.id⟩)) ∧
    (∀ (resp : RespForest) (flat0 : List FlatFolder),
      respHasUnmatched flat0 resp = true →
      ∃ msg, flattenAssetFolders flat0 resp = Except.error msg) := by
  have h1 := flatten_setExt_externalId F
  have h2 : ((flattenAssetFolderContracts (setExternalIdForFolders F)).map
      (fun o => o.id)).Nodup := by
    rw [flatten_setExt_ids F]
    exact hnd
  exact ⟨h1, flatten_mirror gen _ h1 h2 F (fun o ho => ho),
    fun resp flat0 h => respHasUnmatched_error flat0 resp h⟩


/-- A two-level asset-folder tree with distinct ids. -/
def forestTwo : Forest :=
  .cons "f1" "root" none (.cons "f2" "child" none .nil .nil) .nil

/-- Witness for C6: the two-level tree satisfies the round-trip property. -/
theorem assetFolders_roundtrip_witness :
    (forestIds forestTwo).Nodup ∧
    ((∀ o ∈ flattenAssetFolderContracts (setExternalIdForFolders forestTwo),
       o.externalId = some o.id) ∧
     flattenAssetFolders
         (flattenAssetFolderContracts (setExternalIdForFolders forestTwo))
         (serverCreateFolders genW (mapAssetFolders (setExternalIdForFolders forestTwo)))
       = Except.ok ((flattenAssetFolderContracts (setExternalIdForFolders forestTwo)).map
           (fun o => ⟨EntityKind.assetFolder, o.name, o.id, genW o.id, o.id⟩)) ∧
     (∀ (resp : RespForest) (flat0 : List FlatFolder),
       respHasUnmatched flat0 resp = true →
       ∃ msg, flattenAssetFolders flat0 resp = Except.error msg)) :=
  ⟨by decide, assetFolders_roundtrip genW forestTwo (by decide)⟩


/-- C8: if an asset in the assets stage has no companion binary file, the run
throws synchronously at that asset: the stage returns a fatal error, its trace
is exactly the trace of the successful run on the preceding assets alone — so
no upload or create call is issued for the failing asset or any later asset —
and no result entry is returned for any asset of the stage. -/
theorem importAssets_missing_binary (cfg : ImportConfig) (gen : String → String)
    (binaryFiles : List BinaryFile) (currentItems : List ImportItemResult)
    (pre post : List AssetContract) (a : AssetContract)
    (hpre : ∀ x ∈ pre, ∃ b ∈ binaryFiles, b.asset.id = x.id)
    (ha : ∀ b ∈ binaryFiles, b.asset.id ≠ a.id) :
    importAssetsAsync cfg gen binaryFiles currentItems (pre ++ a :: post)
      = ((importAssetsAsync cfg gen binaryFiles currentItems pre).fst,
         Except.error "Could not find binary file for asset") := by
  induction pre with
  | nil =>
      simp only [List.nil_append, importAssetsAsync]
      have hfind : binaryFiles.find? (fun m => m.asset.id == a.id) = none :=
        List.find?_eq_none.mpr (fun b hb => by simpa using ha b hb)
      rw [hfind]
  | cons x rest ih =>
      obtain ⟨hx, hrest⟩ := List.forall_mem_cons.mp hpre
      obtain ⟨b, hb, hbid⟩ := hx
      have hsome : (binaryFiles.find? (fun m => m.asset.id == x.id)).isSome :=
        List.find?_isSome.mpr ⟨b, hb, by simp [hbid]⟩
      obtain ⟨b2, hb2⟩ := Option.isSome_iff_exists.mp hsome
      simp only [List.cons_append, importAssetsAsync, hb2, List.append_eq]
      rw [ih hrest]
      simp [Except.map]


/-- An asset with a small binary payload. -/
def assetOne : AssetContract := ⟨"a1", "one.png", "one", none, none, 10⟩

/-- An asset with no companion binary file in the concrete runs. -/
def assetTwo : AssetContract := ⟨"a2", "two.png", "two", none, none, 10⟩

/-- The binary file of `assetOne`. -/
def binOne : BinaryFile := ⟨assetOne, [1, 2, 3]⟩

/-- Witness for C8: with `assetOne` carrying a binary file and `assetTwo`
lacking one, the stage fails at `assetTwo` with the trace of the `assetOne`
prefix alone. -/
theorem importAssets_missing_binary_witness :
    (∀ x ∈ [assetOne], ∃ b ∈ [binOne], b.asset.id = x.id) ∧
    (∀ b ∈ [binOne], b.asset.id ≠ assetTwo.id) ∧
    importAssetsAsync cfgBase genW [binOne] [] ([assetOne] ++ assetTwo :: [])
      = ((importAssetsAsync cfgBase genW [binOne] [] [assetOne]).fst,
         Except.error "Could not find binary file for asset") :=
  ⟨by decide, by decide,
   importAssets_missing_binary cfgBase genW [binOne] [] [assetOne] [] assetTwo
     (by decide) (by decide)⟩

/-- Whether an event is the unsupported-binary-file callback for the asset. -/
def isUnsupportedFor (assetId : String) : Ev → Bool
  | .unsupportedBinaryFile i => i == assetId
  | _ => false

theorem importAssets_unsupported_ids (cfg : ImportConfig) (gen : String → String)
    (binaryFiles : List BinaryFile) (currentItems : List ImportItemResult)
    (xs : List AssetContract) (assetId : String) (hne : ∀ x ∈ xs, x.id ≠ assetId) :
    ∀ e ∈ (importAssetsAsync cfg gen binaryFiles currentItems xs).fst,
      isUnsupportedFor assetId e = false := by
  induction xs with
  | nil =>
      intro e he
      cases he
  | cons x rest ih =>
      obtain ⟨hx, hrest⟩ := List.forall_mem_cons.mp hne
      intro e he
      simp only [importAssetsAsync] at he
      split at he
      · cases he
      · next b hb =>
          have hbid : b.asset.id = x.id := by
            have := List.find?_some hb
            simpa using this
          simp only [List.mem_append] at he
          rcases he with ((hm | hm) | hm) | hm
          · by_cases hover : maxAllowedAssetSizeInBytes ≤ b.asset.size
            · rw [if_pos hover] at hm
              by_cases hcb : cfg.onUnsupportedBinaryFile = true
              · rw [if_pos hcb] at hm
                rcases List.mem_singleton.mp hm with rfl
                simp only [isUnsupportedFor, hbid]
                exact beq_eq_false_iff_ne.mpr hx
              · rw [if_neg hcb] at hm
                cases hm
            · rw [if_neg hover] at hm
              cases hm
          · rcases List.mem_cons.mp hm with rfl | hm2
            · rfl
            · rcases List.mem_singleton.mp hm2 with rfl
              rfl
          · by_cases hoi : cfg.onImport = true
            · rw [if_pos hoi] at hm
              rcases List.mem_singleton.mp hm with rfl
              rfl
            · rw [if_neg hoi] at hm
              cases hm
          · exact ih hrest e hm


theorem filter_eq_nil_of_false {p : Ev → Bool} {t : List Ev}
    (h : ∀ e ∈ t, p e = false) : t.filter p = [] := by
  induction t with
  | nil => rfl
  | cons e r ih =>
      rw [List.filter_cons, h e (List.mem_cons_self e r)]
      exact ih (fun e2 he2 => h e2 (List.mem_cons_of_mem e he2))

theorem filter_unsupported_ite_cb (q : String) {c : Prop} [Decidable c]
    (t : ActionType) (s : String) :
    (if c then [Ev.importCb t s] else []).filter (isUnsupportedFor q) = [] := by
  by_cases hc : c
  · rw [if_pos hc]
    rfl
  · rw [if_neg hc]
    rfl

/-- C7: in a successful assets stage with the unsupported-file callback
configured and distinct asset ids, every asset whose companion binary file has
size at least the 100,000,000-byte ceiling gets the unsupported callback
exactly once, has an empty binary payload uploaded in its place, and is still
created, appearing in the returned results with its assigned import id; every
asset strictly below the ceiling uploads its full payload and never triggers
the callback. -/
theorem importAssets_size_ceiling (cfg : ImportConfig) (gen : String → String)
    (binaryFiles : List BinaryFile) (currentItems : List ImportItemResult)
    (assets : List AssetContract)
    (hcb : cfg.onUnsupportedBinaryFile = true)
    (hbin : ∀ x ∈ assets, ∃ b ∈ binaryFiles, b.asset.id = x.id)
    (hids : (assets.map (fun x => x.id)).Nodup) :
    ∃ tr rs, importAssetsAsync cfg gen binaryFiles currentItems assets
        = (tr, Except.ok rs) ∧
      ∀ x ∈ assets, ∀ b, binaryFiles.find? (fun m => m.asset.id == x.id) = some b →
        (maxAllowedAssetSizeInBytes ≤ b.asset.size →
           (tr.filter (isUnsupportedFor x.id)).length = 1 ∧
           Ev.call (.uploadBinaryFile x.fileName []) ∈ tr ∧
           ∃ r ∈ rs, r.originalId = x.id ∧ r.importId = gen x.id) ∧
        (b.asset.size < maxAllowedAssetSizeInBytes →
           (tr.filter (isUnsupportedFor x.id)).length = 0 ∧
           Ev.call (.uploadBinaryFile x.fileName b.binaryData) ∈ tr) := by
  induction assets with
  | nil =>
      refine ⟨[], [], rfl, ?_⟩
      intro x hx
      cases hx
  | cons x rest ih =>
      obtain ⟨hx, hrest⟩ := List.forall_mem_cons.mp hbin
      rw [List.map_cons, List.nodup_cons] at hids
      obtain ⟨tr2, rs2, hstage2, hprop2⟩ := ih hrest hids.2
      obtain ⟨b0, hb0, hb0id⟩ := hx
      have hsome : (binaryFiles.find? (fun m => m.asset.id == x.id)).isSome :=
        List.find?_isSome.mpr ⟨b0, hb0, by simp [hb0id]⟩
      obtain ⟨b, hb⟩ := Option.isSome_iff_exists.mp hsome
      have hbid : b.asset.id = x.id := by simpa using List.find?_some hb
      have htr2nil : ∀ q, (∀ z ∈ rest, z.id ≠ q) →
          tr2.filter (isUnsupportedFor q) = [] := by
        intro q hq
        refine filter_eq_nil_of_false ?_
        have := importAssets_unsupported_ids cfg gen binaryFiles currentItems rest q hq
        rw [hstage2] at this
        exact this
      refine ⟨((if maxAllowedAssetSizeInBytes ≤ b.asset.size then
            (if cfg.onUnsupportedBinaryFile = true then
              [Ev.unsupportedBinaryFile b.asset.id] else [])
          else []) ++
          [Ev.call (.uploadBinaryFile x.fileName
             (if maxAllowedAssetSizeInBytes ≤ b.asset.size then [] else b.binaryData)),
           Ev.call (.addAsset (getAddAssetModel x
             (gen (String.append "file-" x.id)) currentItems))] ++
          (if cfg.onImport = true then [Ev.importCb .asset x.fileName] else [])) ++ tr2,
        ⟨.asset, x.fileName, x.id, gen x.id, x.id⟩ :: rs2, ?_, ?_⟩
      · simp only [importAssetsAsync, hb, hstage2, Except.map]
      · intro y hy b2 hb2
        rcases List.mem_cons.mp hy with rfl | hm
        · rw [hb] at hb2
          injection hb2 with hb2
          subst hb2
          constructor
          · intro hov
            refine ⟨?_, ?_, ⟨.asset, y.fileName, y.id, gen y.id, y.id⟩,
              List.mem_cons_self _ _, rfl, rfl⟩
            · rw [List.filter_append, List.filter_append, List.filter_append]
              rw [if_pos hov, if_pos hcb]
              rw [htr2nil y.id (fun z hz hcontra => hids.1 (hcontra ▸
                List.mem_map_of_mem (fun m => m.id) hz))]
              rw [filter_unsupported_ite_cb]
              simp [isUnsupportedFor, hbid]
            · simp [hov]
          · intro hlt
            have hov : ¬ maxAllowedAssetSizeInBytes ≤ b.asset.size := by omega
            constructor
            · rw [List.filter_append, List.filter_append, List.filter_append]
              rw [if_neg hov]
              rw [htr2nil y.id (fun z hz hcontra => hids.1 (hcontra ▸
                List.mem_map_of_mem (fun m => m.id) hz))]
              rw [filter_unsupported_ite_cb]
              simp [isUnsupportedFor]
            · simp [hov]
        · have hne : x.id ≠ y.id := by
            intro hcontra
            exact hids.1 (hcontra ▸ List.mem_map_of_mem (fun m => m.id) hm)
          obtain ⟨hp1, hp2⟩ := hprop2 y hm b2 hb2
          have hprefix : ((if maxAllowedAssetSizeInBytes ≤ b.asset.size then
              (if cfg.onUnsupportedBinaryFile = true then
                [Ev.unsupportedBinaryFile b.asset.id] else [])
            else []) ++
            [Ev.call (.uploadBinaryFile x.fileName
               (if maxAllowedAssetSizeInBytes ≤ b.asset.size then [] else b.binaryData)),
             Ev.call (.addAsset (getAddAssetModel x
               (gen (String.append "file-" x.id)) currentItems))] ++
            (if cfg.onImport = true then [Ev.importCb .asset x.fileName] else [])).filter
              (isUnsupportedFor y.id) = [] := by
            rw [List.filter_append, List.filter_append]
            rw [filter_unsupported_ite_cb]
            have hA : (if maxAllowedAssetSizeInBytes ≤ b.asset.size then
                (if cfg.onUnsupportedBinaryFile = true then
                  [Ev.unsupportedBinaryFile b.asset.id] else [])
              else []).filter (isUnsupportedFor y.id) = [] := by
              by_cases hov : maxAllowedAssetSizeInBytes ≤ b.asset.size
              · rw [if_pos hov, if_pos hcb]
                simp [isUnsupportedFor, hbid, hne]
              · rw [if_neg hov]
                rfl
            rw [hA]
            rfl
          constructor
          · intro hov
            obtain ⟨hc1, hc2, r, hr, hr2⟩ := hp1 hov
            refine ⟨?_, List.mem_append_right _ hc2, r, List.mem_cons_of_mem _ hr, hr2⟩
            rw [List.filter_append, hprefix, List.nil_append]
            exact hc1
          · intro hlt
            obtain ⟨hc1, hc2⟩ := hp2 hlt
            refine ⟨?_, List.mem_append_right _ hc2⟩
            rw [List.filter_append, hprefix, List.nil_append]
            exact hc1


/-- A configuration with the unsupported-binary-file callback configured. -/
def cfgCb : ImportConfig := { cfgBase with onUnsupportedBinaryFile := true }

/-- An asset whose companion binary file sits above the size ceiling. -/
def assetBig : AssetContract := ⟨"big", "big.bin", "big", none, none, 200000000⟩

/-- The oversized binary file of `assetBig`. -/
def binBig : BinaryFile := ⟨assetBig, [7]⟩

/-- Witness for C7: a run with one oversized and one small asset satisfies the
size-ceiling property. -/
theorem importAssets_size_ceiling_witness :
    cfgCb.onUnsupportedBinaryFile = true ∧
    (∀ x ∈ [assetBig, assetOne], ∃ b ∈ [binBig, binOne], b.asset.id = x.id) ∧
    (([assetBig, assetOne].map (fun x => x.id)).Nodup) ∧
    (∃ tr rs, importAssetsAsync cfgCb genW [binBig, binOne] [] [assetBig, assetOne]
        = (tr, Except.ok rs) ∧
      ∀ x ∈ [assetBig, assetOne], ∀ b,
        [binBig, binOne].find? (fun m => m.asset.id == x.id) = some b →
        (maxAllowedAssetSizeInBytes ≤ b.asset.size →
           (tr.filter (isUnsupportedFor x.id)).length = 1 ∧
           Ev.call (.uploadBinaryFile x.fileName []) ∈ tr ∧
           ∃ r ∈ rs, r.originalId = x.id ∧ r.importId = genW x.id) ∧
        (b.asset.size < maxAllowedAssetSizeInBytes →
           (tr.filter (isUnsupportedFor x.id)).length = 0 ∧
           Ev.call (.uploadBinaryFile x.fileName b.binaryData) ∈ tr)) :=
  ⟨rfl, by decide, by decide,
   importAssets_size_ceiling cfgCb genW [binBig, binOne] [] [assetBig, assetOne]
     rfl (by decide) (by decide)⟩


/-- The publish calls of a trace, in order. -/
def publishCallsOf : List Ev → List NetworkCall
  | [] => []
  | Ev.call (NetworkCall.publishLanguageVariant ic lc) :: rest =>
      NetworkCall.publishLanguageVariant ic lc :: publishCallsOf rest
  | _ :: rest => publishCallsOf rest

theorem publishCallsOf_ite_cb {c : Prop} [Decidable c] {t : ActionType} {s : String}
    {rest : List Ev} :
    publishCallsOf ((if c then [Ev.importCb t s] else []) ++ rest)
      = publishCallsOf rest := by
  by_cases hc : c
  · rw [if_pos hc]
    rfl
  · rw [if_neg hc]
    rfl

theorem publishLoop_ok (cfg : ImportConfig) (xs : List LanguageVariantContract)
    (hcn : ∀ v ∈ xs, v.item.codename ≠ none ∧ v.language.codename ≠ none) :
    ∃ tr, publishLoop cfg xs = (tr, Except.ok ()) ∧
      publishCallsOf tr = xs.map (fun v =>
        NetworkCall.publishLanguageVariant (v.item.codename.getD "")
          (v.language.codename.getD "")) := by
  induction xs with
  | nil => exact ⟨[], rfl, rfl⟩
  | cons x rest ih =>
      obtain ⟨hx, hrest⟩ := List.forall_mem_cons.mp hcn
      obtain ⟨tr2, hstage2, hcalls2⟩ := ih hrest
      cases hic : x.item.codename with
      | none => exact absurd hic hx.1
      | some ic =>
        cases hlc : x.language.codename with
        | none => exact absurd hlc hx.2
        | some lc =>
          refine ⟨Ev.call (.publishLanguageVariant ic lc) ::
              ((if cfg.onImport then
                [Ev.importCb .publish (String.append ic (String.append " " lc))]
              else []) ++ tr2), ?_, ?_⟩
          · simp only [publishLoop, hic, hlc, hstage2, List.cons_append]
          · simp only [publishCallsOf, publishCallsOf_ite_cb, hcalls2,
              List.map_cons, hic, hlc, Option.getD_some]

theorem publishLoop_error (cfg : ImportConfig) (xs : List LanguageVariantContract)
    (hbad : ∃ v ∈ xs, v.item.codename = none ∨ v.language.codename = none) :
    ∃ msg, (publishLoop cfg xs).snd = Except.error msg := by
  induction xs with
  | nil =>
      obtain ⟨v, hv, _⟩ := hbad
      cases hv
  | cons x rest ih =>
      obtain ⟨v, hv, hmiss⟩ := hbad
      rcases List.mem_cons.mp hv with rfl | hm
      · cases hic : v.item.codename with
        | none => exact ⟨"Missing item codename for item", by simp [publishLoop, hic]⟩
        | some ic =>
          cases hlc : v.language.codename with
          | none =>
              exact ⟨"Missing language codename for item", by simp [publishLoop, hic, hlc]⟩
          | some lc =>
              rcases hmiss with hmiss | hmiss
              · rw [hic] at hmiss
                cases hmiss
              · rw [hlc] at hmiss
                cases hmiss
      · cases hic : x.item.codename with
        | none => exact ⟨"Missing item codename for item", by simp [publishLoop, hic]⟩
        | some ic =>
          cases hlc : x.language.codename with
          | none =>
              exact ⟨"Missing language codename for item", by simp [publishLoop, hic, hlc]⟩
          | some lc =>
              obtain ⟨msg, hmsg⟩ := ih ⟨v, hm, hmiss⟩
              refine ⟨msg, ?_⟩
              simp only [publishLoop, hic, hlc]
              exact hmsg

/-- C10: if the supplied workflow steps contain no step named `Published`, the
publish pass returns without issuing any call and without error.  Otherwise,
with `ps` the first step of that name: when every variant whose recorded
workflow-step id equals `ps.id` carries item and language codenames, the pass
succeeds and its publish calls are exactly one per such variant, in order, and
none for any other variant; when some such variant lacks a codename, the pass
fails with a fatal error. -/
theorem publishLanguageVariants_spec (cfg : ImportConfig)
    (languageVariants : List LanguageVariantContract)
    (workflowSteps : List WorkflowStep) :
    ((∀ s ∈ workflowSteps, s.name ≠ publishedWorkflowStepName) →
      publishLanguageVariantsAsync cfg languageVariants workflowSteps
        = ([], Except.ok ())) ∧
    (∀ ps, getPublishedWorkflowStep workflowSteps = some ps →
      ((∀ v ∈ languageVariants.filter (fun m => m.workflowStep.id == ps.id),
          v.item.codename ≠ none ∧ v.language.codename ≠ none) →
        (publishLanguageVariantsAsync cfg languageVariants workflowSteps).snd
          = Except.ok () ∧
        publishCallsOf
            (publishLanguageVariantsAsync cfg languageVariants workflowSteps).fst
          = (languageVariants.filter (fun m => m.workflowStep.id == ps.id)).map
              (fun v => NetworkCall.publishLanguageVariant
                (v.item.codename.getD "") (v.language.codename.getD ""))) ∧
      ((∃ v ∈ languageVariants.filter (fun m => m.workflowStep.id == ps.id),
          v.item.codename = none ∨ v.language.codename = none) →
        ∃ msg, (publishLanguageVariantsAsync cfg languageVariants workflowSteps).snd
          = Except.error msg)) := by
  constructor
  · intro hno
    have hfind : getPublishedWorkflowStep workflowSteps = none := by
      unfold getPublishedWorkflowStep
      refine List.find?_eq_none.mpr ?_
      intro s hs
      simpa using hno s hs
    simp [publishLanguageVariantsAsync, hfind]
  · intro ps hps
    constructor
    · intro hcn
      cases hempty : (languageVariants.filter
          (fun m => m.workflowStep.id == ps.id)).isEmpty with
      | true =>
          have hnil := List.isEmpty_iff.mp hempty
          rw [hnil] at hcn ⊢
          simp [publishLanguageVariantsAsync, hps, hnil, publishCallsOf]
      | false =>
          obtain ⟨tr, hloop, hcalls⟩ := publishLoop_ok cfg _ hcn
          simp only [publishLanguageVariantsAsync, hps, hempty, Bool.false_eq_true,
            if_neg, hloop]
          exact ⟨rfl, hcalls⟩
    · intro hbad
      have hempty : (languageVariants.filter
          (fun m => m.workflowStep.id == ps.id)).isEmpty = false := by
        obtain ⟨v, hv, _⟩ := hbad
        cases hflt : languageVariants.filter (fun m => m.workflowStep.id == ps.id) with
        | nil =>
            rw [hflt] at hv
            cases hv
        | cons a b =>
            rfl
      obtain ⟨msg, hmsg⟩ := publishLoop_error cfg _ hbad
      refine ⟨msg, ?_⟩
      simp only [publishLanguageVariantsAsync, hps, hempty, Bool.false_eq_true, if_neg]
      exact hmsg


/-- Workflow steps containing a `Published` step. -/
def stepsPub : List WorkflowStep := [⟨"ws1", "Published"⟩, ⟨"ws2", "Draft"⟩]

/-- A variant recorded in the published workflow step. -/
def variantPub : LanguageVariantContract :=
  ⟨⟨"i1", some "ia"⟩, ⟨"l1", some "la"⟩, .jnull, ⟨"ws1", none⟩⟩

/-- A variant recorded in a non-published workflow step. -/
def variantDraft : LanguageVariantContract :=
  ⟨⟨"i2", some "ib"⟩, ⟨"l1", some "la"⟩, .jnull, ⟨"ws2", none⟩⟩

/-- Witness for C10: with one published and one draft variant the pass issues
exactly the one publish call of the published variant. -/
theorem publishLanguageVariants_spec_witness :
    getPublishedWorkflowStep stepsPub = some ⟨"ws1", "Published"⟩ ∧
    (publishLanguageVariantsAsync cfgBase [variantPub, variantDraft] stepsPub).snd
      = Except.ok () ∧
    publishCallsOf
        (publishLanguageVariantsAsync cfgBase [variantPub, variantDraft] stepsPub).fst
      = [NetworkCall.publishLanguageVariant "ia" "la"] := by
  have h := ((publishLanguageVariants_spec cfgBase [variantPub, variantDraft]
    stepsPub).2 ⟨"ws1", "Published"⟩ rfl).1 (by decide)
  refine ⟨rfl, h.1, ?_⟩
  rw [h.2]
  rfl


theorem flatten_mirror_isOk (gen : String → String) (flat : List FlatFolder) :
    ∀ G : Forest,
      (∀ o ∈ flattenAssetFolderContracts (setExternalIdForFolders G), o ∈ flat) →
      ∃ entries, flattenAssetFolders flat
          (serverCreateFolders gen (mapAssetFolders (setExternalIdForFolders G)))
        = Except.ok entries := by
  intro G
  induction G with
  | nil =>
      intro _
      exact ⟨[], rfl⟩
  | cons i n e ch sib ihc ihs =>
      intro hsub
      have hhead : (⟨i, n, some i⟩ : FlatFolder) ∈ flat := by
        refine hsub _ ?_
        simp [setExternalIdForFolders, flattenAssetFolderContracts]
      obtain ⟨chE, hch⟩ := ihc (fun o ho => hsub o (by
        simp only [setExternalIdForFolders, flattenAssetFolderContracts,
          List.mem_cons, List.mem_append]
        right
        left
        exact ho))
      obtain ⟨sibE, hsib⟩ := ihs (fun o ho => hsub o (by
        simp only [setExternalIdForFolders, flattenAssetFolderContracts,
          List.mem_cons, List.mem_append]
        right
        right
        exact ho))
      have hfindSome : (flat.find? (fun m => m.externalId == some i)).isSome :=
        List.find?_isSome.mpr ⟨⟨i, n, some i⟩, hhead, by simp⟩
      obtain ⟨o2, ho2⟩ := Option.isSome_iff_exists.mp hfindSome
      refine ⟨⟨EntityKind.assetFolder, n, o2.id, gen i, o2.id⟩ :: (chE ++ sibE), ?_⟩
      simp only [setExternalIdForFolders, mapAssetFolders, serverCreateFolders,
        flattenAssetFolders, Option.getD_some, ho2, hch, hsib]

/-- The asset-folders stage never fails against the mirroring server. -/
theorem importAssetFoldersAsync_ok (cfg : ImportConfig) (gen : String → String)
    (F : Forest) :
    ∃ tr entries, importAssetFoldersAsync cfg gen F = (tr, Except.ok entries) := by
  obtain ⟨entries, hE⟩ :=
    flatten_mirror_isOk gen (flattenAssetFolderContracts (setExternalIdForFolders F))
      F (fun o ho => ho)
  refine ⟨Ev.call (.addAssetFolders (mapAssetFolders (setExternalIdForFolders F))) ::
    (if cfg.onImport then
      entries.map (fun f => Ev.importCb .assetFolder f.imported) else []),
    entries, ?_⟩
  simp only [importAssetFoldersAsync, hE]

theorem importLanguagesLoop_default_mismatch (cfg : ImportConfig)
    (gen : String → String) (tl : List TargetLanguage)
    (langs : List LanguageContract) (dl : LanguageContract)
    (hfix : cfg.fixLanguages = false)
    (hid : dl.id = defaultLanguageId)
    (hcn : ∀ t ∈ tl, t.codename ≠ dl.codename)
    (hdef : ∃ t ∈ tl, t.id = defaultLanguageId) :
    ∀ (server : List TargetLanguage), dl ∈ langs →
      ∃ msg, (importLanguagesLoop cfg gen tl server langs).snd = Except.error msg := by
  induction langs with
  | nil =>
      intro server hmem
      cases hmem
  | cons l rest ih =>
      intro server hmem
      have hfixstep : languageFixStep cfg tl server l = ([], Except.ok (tl, server)) := by
        simp [languageFixStep, hfix]
      rcases List.mem_cons.mp hmem with heq | hm
      · subst heq
        have hfind1 : tl.find? (fun m => m.codename == dl.codename) = none :=
          List.find?_eq_none.mpr (fun t ht => by simpa using hcn t ht)
        obtain ⟨t0, ht0, ht0id⟩ := hdef
        have hfind2 : (tl.find? (fun m => m.id == defaultLanguageId)).isSome :=
          List.find?_isSome.mpr ⟨t0, ht0, by simp [ht0id]⟩
        obtain ⟨t1, ht1⟩ := Option.isSome_iff_exists.mp hfind2
        have ht1ne : t1.codename ≠ dl.codename := hcn t1 (List.mem_of_find?_eq_some ht1)
        refine ⟨"Codename of default language from imported data does not match target project", ?_⟩
        have htry : tryGetLanguage tl dl = Except.error
            "Codename of default language from imported data does not match target project" := by
          simp [tryGetLanguage, hfind1, hid, ht1, ht1ne]
        simp [importLanguagesLoop, hfixstep, htry]
      · cases htry : tryGetLanguage tl l with
        | error msg =>
            exact ⟨msg, by simp [importLanguagesLoop, hfixstep, htry]⟩
        | ok odata =>
            cases odata with
            | none =>
                obtain ⟨msg, hmsg⟩ := ih server hm
                exact ⟨msg, by simp [importLanguagesLoop, hfixstep, htry, hmsg]⟩
            | some data =>
                obtain ⟨msg, hmsg⟩ := ih (server ++
                  [{ id := gen l.id, codename := data.codename, name := data.name,
                     isActive := data.isActive }]) hm
                exact ⟨msg, by simp [importLanguagesLoop, hfixstep, htry, hmsg, Except.map]⟩


/-- C5 (amended): if the preprocessed source contains the default language
(sentinel id) with a codename that differs from every target language codename
(in particular from the target default language) while a target default
language exists and fix-languages mode is disabled, then `importAsync` fails
with a fatal error raised in the languages stage: every event of the run
trace belongs to the asset-folders or languages stage (rank at most 1), so no
network call of any stage after languages is issued.  The asset-folders stage,
which precedes languages in the fixed order, may already have executed. -/
theorem importAsync_default_language_mismatch (cfg : ImportConfig)
    (gen : String → String) (tl : List TargetLanguage) (src : ImportSource)
    (dl : LanguageContract)
    (hfix : cfg.fixLanguages = false)
    (hmem : dl ∈ (preprocessSource cfg src).importData.languages)
    (hid : dl.id = defaultLanguageId)
    (hcn : ∀ t ∈ tl, t.codename ≠ dl.codename)
    (hdef : ∃ t ∈ tl, t.id = defaultLanguageId) :
    ∃ tr msg, importAsync cfg gen tl src = (tr, Except.error msg) ∧
      ∀ e ∈ tr, evRank e ≤ 1 := by
  obtain ⟨msg, hloop⟩ := importLanguagesLoop_default_mismatch cfg gen tl
    (preprocessSource cfg src).importData.languages dl hfix hid hcn hdef tl hmem
  have hsnd : (importLanguagesAsync cfg gen tl
      (preprocessSource cfg src).importData.languages).snd = Except.error msg := by
    simp only [importLanguagesAsync]
    exact hloop
  have hlangsEq : importLanguagesAsync cfg gen tl
      (preprocessSource cfg src).importData.languages
      = ((importLanguagesAsync cfg gen tl
          (preprocessSource cfg src).importData.languages).fst, Except.error msg) := by
    rw [← hsnd]
  have hLne : (preprocessSource cfg src).importData.languages.isEmpty = false := by
    cases hl : (preprocessSource cfg src).importData.languages with
    | nil =>
        rw [hl] at hmem
        cases hmem
    | cons a b => rfl
  obtain ⟨t1, r1, hstage1, hrank1⟩ :
      ∃ t1 r1, (if (preprocessSource cfg src).assetFolders.isNil = true then
          ([], Except.ok [])
        else importAssetFoldersAsync cfg gen (preprocessSource cfg src).assetFolders)
        = (t1, Except.ok r1) ∧ ranksAt 0 t1 := by
    cases hb : (preprocessSource cfg src).assetFolders.isNil with
    | true => exact ⟨[], [], by rw [if_pos rfl], ranksAt_nil⟩
    | false =>
        obtain ⟨tr0, e0, h0⟩ := importAssetFoldersAsync_ok cfg gen
          (preprocessSource cfg src).assetFolders
        refine ⟨tr0, e0, by rw [if_neg (by simp)]; exact h0, ?_⟩
        have := importAssetFoldersAsync_rank cfg gen (preprocessSource cfg src).assetFolders
        rw [h0] at this
        exact this
  refine ⟨t1 ++ (importLanguagesAsync cfg gen tl
    (preprocessSource cfg src).importData.languages).fst, msg, ?_, ?_⟩
  · simp only [importAsync, importStagesAsync]
    rw [seqE_of_ok _ hstage1]
    rw [Prod.mk.injEq]
    constructor
    · rw [List.append_cancel_left_eq]
      rw [if_neg (by simp [hLne])]
      rw [seqE_of_error _ hlangsEq]
    · rw [if_neg (by simp [hLne])]
      rw [seqE_of_error _ hlangsEq]
  · intro e he
    rcases List.mem_append.mp he with hm | hm
    · rw [hrank1 e hm]
      omega
    · rw [importLanguagesAsync_rank cfg gen tl
        (preprocessSource cfg src).importData.languages e hm]


/-- The source default language: sentinel id, codename `en-us`. -/
def dlUS : LanguageContract :=
  ⟨defaultLanguageId, "English US", "en-us", none, true, true, ⟨"x", none⟩⟩

/-- A target project whose default language has codename `en-gb`. -/
def tlGB : List TargetLanguage :=
  [⟨defaultLanguageId, "en-gb", "English GB", true⟩]

/-- A source with only the mismatched default language. -/
def srcMismatch : ImportSource :=
  ⟨{ emptyImportData with languages := [dlUS] }, .nil, []⟩

/-- The mismatched source together with one asset folder. -/
def srcMismatchFolder : ImportSource :=
  ⟨{ emptyImportData with languages := [dlUS] },
   .cons "f1" "folder" none .nil .nil, []⟩

/-- Counterexample for C5: with an asset folder present, the mismatched
default language does abort the run, but only after the asset-folders stage
has already issued its create call — the fatal error does not precede every
other stage, contradicting the claim that no network create/update call of
any other stage is issued. -/
theorem default_language_mismatch_counterexample :
    (importAsync cfgBase genW tlGB srcMismatchFolder).snd
      = Except.error
          "Codename of default language from imported data does not match target project" ∧
    Ev.call (.addAssetFolders (.cons "folder" (some "f1") .nil .nil))
      ∈ (importAsync cfgBase genW tlGB srcMismatchFolder).fst :=
  ⟨rfl, by decide⟩

/-- Witness for C5 (amended): the mismatched default language aborts the
concrete run with every trace event in the asset-folders or languages stage. -/
theorem importAsync_default_language_mismatch_witness :
    cfgBase.fixLanguages = false ∧
    dlUS ∈ (preprocessSource cfgBase srcMismatchFolder).importData.languages ∧
    dlUS.id = defaultLanguageId ∧
    (∀ t ∈ tlGB, t.codename ≠ dlUS.codename) ∧
    (∃ t ∈ tlGB, t.id = defaultLanguageId) ∧
    (∃ tr msg, importAsync cfgBase genW tlGB srcMismatchFolder
        = (tr, Except.error msg) ∧ ∀ e ∈ tr, evRank e ≤ 1) :=
  ⟨rfl, by decide, rfl, by decide, by decide,
   importAsync_default_language_mismatch cfgBase genW tlGB srcMismatchFolder dlUS
     rfl (by decide) rfl (by decide) (by decide)⟩

end KontentImport
